import Mathlib

/-!
Verification of the response-normalization and command-encoding core of
`uEagle.py` (Rainforest EAGLE client).  The Python module is shallowly
embedded: JSON-like runtime values become the inductive type `JVal`,
in-place dictionary mutation becomes explicit state passing on association
lists, and every Python exception (KeyError, TypeError, ValueError,
struct.error, AttributeError) becomes an `Except PyErr` error value.
Machine-level 32-bit packing (`struct.pack('>I', ...)` / `unpack('>i', ...)`)
is modelled on `Nat`/`Int` with explicit bounds and byte arithmetic.
Python floats are modelled as exact rationals.
-/

/-- Errors raised by the embedded Python code. -/
inductive PyErr where
  | keyError (key : String)
  | typeError (msg : String)
  | valueError (msg : String)
  | attributeError (msg : String)
  | structError (msg : String)
deriving DecidableEq

/-- JSON-like runtime values of the Python module: strings, ints, floats
(modelled as exact rationals), booleans, null, `time.struct_time` results
(modelled by the seconds value passed to `time.localtime`), dictionaries
(association lists preserving insertion order) and lists. -/
inductive JVal where
  | str (s : String)
  | int (n : Int)
  | float (q : Rat)
  | bool (b : Bool)
  | null
  | time (secs : Int)
  | obj (entries : List (String × JVal))
  | arr (elems : List JVal)

deriving instance DecidableEq for Except

/-- A Python dictionary with string keys, in insertion order. -/
abbrev PyDict := List (String × JVal)

/-- Computation rule for `Except` bind on a success value. -/
@[simp] theorem exceptOkBind {ε α β : Type} (a : α) (f : α → Except ε β) :
    (Except.ok a : Except ε α) >>= f = f a := rfl

/-- Computation rule for `Except` bind on an error value. -/
@[simp] theorem exceptErrorBind {ε α β : Type} (e : ε) (f : α → Except ε β) :
    (Except.error e : Except ε α) >>= f = .error e := rfl

/-- `pure` on `Except` is `Except.ok`. -/
@[simp] theorem exceptPureEqOk {ε α : Type} (a : α) :
    (pure a : Except ε α) = .ok a := rfl

/-- Computation rule for `Except` map on a success value. -/
@[simp] theorem exceptMapOk {ε α β : Type} (g : α → β) (a : α) :
    (g <$> (Except.ok a : Except ε α) : Except ε β) = .ok (g a) := rfl

/-- Computation rule for `Except` map on an error value. -/
@[simp] theorem exceptMapError {ε α β : Type} (g : α → β) (e : ε) :
    (g <$> (Except.error e : Except ε α) : Except ε β) = .error e := rfl

/-- `k in d` for a Python dict. -/
def hasKey (d : PyDict) (k : String) : Bool :=
  d.any (fun p => p.1 == k)

/-- `d[k]` read access: KeyError when the key is absent. -/
def lookupKey : PyDict → String → Except PyErr JVal
  | [], k => .error (.keyError k)
  | p :: rest, k => if p.1 == k then .ok p.2 else lookupKey rest k

/-- `d[k] = v`: replace the value in place, or append a new entry. -/
def setKey : PyDict → String → JVal → PyDict
  | [], k, v => [(k, v)]
  | p :: rest, k, v => if p.1 == k then (k, v) :: rest else p :: setKey rest k v

/-- `del d[k]`: KeyError when the key is absent. -/
def delKey (d : PyDict) (k : String) : Except PyErr PyDict :=
  if hasKey d k then .ok (d.filter (fun p => !(p.1 == k))) else .error (.keyError k)

/-- Value of a single hexadecimal digit character. -/
def hexDigit? (c : Char) : Option Nat :=
  if 48 ≤ c.toNat ∧ c.toNat ≤ 57 then some (c.toNat - 48)
  else if 97 ≤ c.toNat ∧ c.toNat ≤ 102 then some (c.toNat - 87)
  else if 65 ≤ c.toNat ∧ c.toNat ≤ 70 then some (c.toNat - 55)
  else none

/-- Accumulate digits of the given base. -/
def digitsVal (base : Nat) : List Char → Nat → Option Nat
  | [], acc => some acc
  | c :: cs, acc =>
    match hexDigit? c with
    | some v => if v < base then digitsVal base cs (acc * base + v) else none
    | none => none

/-- Unsigned part of Python `int(s, 0)` literal parsing: `0x`/`0o`/`0b`
prefixes select the base, otherwise decimal (where a leading zero is only
allowed when every digit is zero).  Underscore separators and surrounding
whitespace are not modelled. -/
def parseUnsignedChars : List Char → Option Nat
  | [] => none
  | '0' :: c :: cs =>
    if c = 'x' ∨ c = 'X' then (if cs = [] then none else digitsVal 16 cs 0)
    else if c = 'o' ∨ c = 'O' then (if cs = [] then none else digitsVal 8 cs 0)
    else if c = 'b' ∨ c = 'B' then (if cs = [] then none else digitsVal 2 cs 0)
    else if (c :: cs).all (fun a => a = '0') then some 0
    else none
  | cs => if cs.all (fun a => 48 ≤ a.toNat ∧ a.toNat ≤ 57) then digitsVal 10 cs 0 else none

/-- Signed Python integer literal with base auto-detection. -/
def parseIntChars : List Char → Option Int
  | '-' :: cs => (parseUnsignedChars cs).map (fun n => -(n : Int))
  | '+' :: cs => (parseUnsignedChars cs).map (fun n => (n : Int))
  | cs => (parseUnsignedChars cs).map (fun n => (n : Int))

/-- Python `int(v, 0)`: parses a string literal with base auto-detection;
any non-string argument raises TypeError (an explicit base forbids
non-string input, so floats, ints, booleans etc. are all rejected). -/
def pyIntBase0 : JVal → Except PyErr Int
  | .str s =>
    match parseIntChars s.toList with
    | some n => .ok n
    | none => .error (.valueError ("invalid literal for int with base 0"))
  | _ => .error (.typeError ("int cannot convert non-string with explicit base"))

/-- Python `10 ** t` for integer `t`, as an exact rational. -/
def pow10 (t : Int) : Rat :=
  if 0 ≤ t then ((10 ^ t.toNat : Nat) : Rat) else 1 / ((10 ^ (-t).toNat : Nat) : Rat)

/-- Python `round(x, n)`: round to `n` decimal places, ties to even,
modelled exactly on rationals. -/
def pyRound (x : Rat) (n : Int) : Rat :=
  let s := pow10 n
  let y := x * s
  let f : Int := ⌊y⌋
  let frac := y - (f : Rat)
  let r : Int :=
    if frac < 1/2 then f
    else if 1/2 < frac then f + 1
    else if f % 2 = 0 then f else f + 1
  (r : Rat) / s

/-- Python `hex(n)`: lowercase hexadecimal with `0x` prefix, `-0x` for
negative arguments. -/
def pyHex (n : Int) : String :=
  if n < 0 then ("-0x") ++ String.mk (Nat.toDigits 16 (-n).toNat)
  else ("0x") ++ String.mk (Nat.toDigits 16 n.toNat)

/-- `struct.pack('>I', n)`: four big-endian bytes of an unsigned 32-bit
integer; struct.error when the argument does not fit. -/
def pack_I (n : Int) : Except PyErr (List Nat) :=
  if n < 0 ∨ 4294967295 < n then .error (.structError ("argument out of range"))
  else .ok [n.toNat / 16777216 % 256, n.toNat / 65536 % 256, n.toNat / 256 % 256, n.toNat % 256]

/-- `struct.unpack('>i', bs)[0]`: reinterpret four big-endian bytes as a
signed (two's-complement) 32-bit integer. -/
def unpack_i : List Nat → Except PyErr Int
  | [b3, b2, b1, b0] =>
    let u := ((b3 * 256 + b2) * 256 + b1) * 256 + b0
    .ok (if u < 2147483648 then (u : Int) else (u : Int) - 4294967296)
  | _ => .error (.structError ("unpack requires a buffer of 4 bytes"))

/-- The decode performed by the `Demand` branch of `convert_demand`
(uEagle.py lines 190-192): parse the hex value as an integer, pack it as an
unsigned 32-bit big-endian word, and unpack those bytes as a signed 32-bit
integer. -/
def decodeDemandField (v : JVal) : Except PyErr Int := do
  let demand ← pyIntBase0 v
  let bytes_demand ← pack_I demand
  unpack_i bytes_demand

/-- Module option `SAFETY_ON` (uEagle.py line 17). -/
def SAFETY_ON : Bool := true

/-- `EPOCH_DELTA` (uEagle.py lines 35-39): value of the linux/unix branch of
the platform conditional; on other platforms the module would use 0. -/
def EPOCH_DELTA : Int := 946684800

/-- `convert_demand` (uEagle.py lines 184-202): scale `Demand` or the two
summation fields by `max(Multiplier,1)/max(Divisor,1)`, round to
`DigitsRight` decimals, then delete the five raw keys. -/
def convert_demand (d : PyDict) : Except PyErr PyDict := do
  let mv ← lookupKey d ("Multiplier")
  let m ← pyIntBase0 mv
  let dvv ← lookupKey d ("Divisor")
  let dv ← pyIntBase0 dvv
  let factor : Rat := ((max m 1 : Int) : Rat) / ((max dv 1 : Int) : Rat)
  let drv ← lookupKey d ("DigitsRight")
  let n_dec ← pyIntBase0 drv
  let d1 ←
    if hasKey d ("Demand") then do
      let demv ← lookupKey d ("Demand")
      let new_int_demand ← decodeDemandField demv
      pure (setKey d ("Demand") (.float (pyRound ((new_int_demand : Rat) * factor) n_dec)))
    else do
      let sdv ← lookupKey d ("SummationDelivered")
      let sd ← pyIntBase0 sdv
      let da := setKey d ("SummationDelivered") (.float (pyRound ((sd : Rat) * factor) n_dec))
      let srv ← lookupKey da ("SummationReceived")
      let sr ← pyIntBase0 srv
      pure (setKey da ("SummationReceived") (.float (pyRound ((sr : Rat) * factor) n_dec)))
  let d2 ← delKey d1 ("Multiplier")
  let d3 ← delKey d2 ("Divisor")
  let d4 ← delKey d3 ("DigitsRight")
  let d5 ← delKey d4 ("DigitsLeft")
  delKey d5 ("SuppressLeadingZero")

/-- `convert_price` (uEagle.py lines 205-210): divide `Price` by
`10 ** TrailingDigits`, decode `Currency`, delete `TrailingDigits`. -/
def convert_price (d : PyDict) : Except PyErr PyDict := do
  let pv ← lookupKey d ("Price")
  let p ← pyIntBase0 pv
  let tdv ← lookupKey d ("TrailingDigits")
  let td ← pyIntBase0 tdv
  let d1 := setKey d ("Price") (.float ((p : Rat) / pow10 td))
  let cv ← lookupKey d1 ("Currency")
  let c ← pyIntBase0 cv
  let d2 := setKey d1 ("Currency") (.int c)
  delKey d2 ("TrailingDigits")

/-- The `if 'Multiplier' in d: convert_demand(d)` statement of
`process_data` (uEagle.py lines 174-175). -/
def demand_stage (d : PyDict) : Except PyErr PyDict :=
  if hasKey d ("Multiplier") then convert_demand d else pure d

/-- The `if 'Price' in d: convert_price(d)` statement of `process_data`
(uEagle.py lines 177-178). -/
def price_stage (d : PyDict) : Except PyErr PyDict :=
  if hasKey d ("Price") then convert_price d else pure d

/-- The `if 'TimeStamp' in d:` statement of `process_data` (uEagle.py
lines 180-181): convert the device timestamp to a local-time value. -/
def timestamp_stage (d : PyDict) : Except PyErr PyDict :=
  if hasKey d ("TimeStamp") then do
    let tv ← lookupKey d ("TimeStamp")
    let t ← pyIntBase0 tv
    pure (setKey d ("TimeStamp") (.time (t + EPOCH_DELTA)))
  else pure d

mutual

/-- `process_data` (uEagle.py lines 160-181): recurse into nested
dictionaries and into every element of nested lists, then apply the
demand/summation, price and timestamp rules to the current record.
Calling it on a non-dictionary raises AttributeError (`.values()`). -/
def process_data (v : JVal) : Except PyErr JVal :=
  match v with
  | .obj entries => do
    let d ← processEntries entries
    let d ← demand_stage d
    let d ← price_stage d
    let d ← timestamp_stage d
    pure (.obj d)
  | _ => .error (.attributeError ("values"))
termination_by sizeOf v

/-- The `for v in d.values()` loop of `process_data`: dictionary values are
recursed into, list values have every element recursed into, all other
values are left untouched. -/
def processEntries (l : List (String × JVal)) : Except PyErr (List (String × JVal)) :=
  match l with
  | [] => pure []
  | (k, JVal.obj kvs) :: rest => do
    let v ← process_data (JVal.obj kvs)
    let rest' ← processEntries rest
    pure ((k, v) :: rest')
  | (k, JVal.arr xs) :: rest => do
    let xs' ← processElems xs
    let rest' ← processEntries rest
    pure ((k, JVal.arr xs') :: rest')
  | kv :: rest => do
    let rest' ← processEntries rest
    pure (kv :: rest')
termination_by sizeOf l

/-- The `for vi in v` loop of `process_data`: every list element is passed
to `process_data` as if it were a dictionary. -/
def processElems (l : List JVal) : Except PyErr (List JVal) :=
  match l with
  | [] => pure []
  | x :: rest => do
    let x' ← process_data x
    let rest' ← processElems rest
    pure (x' :: rest')
termination_by sizeOf l

end

/-- Unfolding lemma: `process_data` on a dictionary. -/
theorem process_data_obj (entries : List (String × JVal)) :
    process_data (JVal.obj entries) = (do
      let d ← processEntries entries
      let d ← demand_stage d
      let d ← price_stage d
      let d ← timestamp_stage d
      pure (.obj d)) := by rw [process_data.eq_def]

@[simp] theorem process_data_str (s : String) :
    process_data (JVal.str s) = .error (.attributeError ("values")) := by rw [process_data.eq_def]

@[simp] theorem process_data_int (n : Int) :
    process_data (JVal.int n) = .error (.attributeError ("values")) := by rw [process_data.eq_def]

@[simp] theorem process_data_float (q : Rat) :
    process_data (JVal.float q) = .error (.attributeError ("values")) := by rw [process_data.eq_def]

@[simp] theorem process_data_bool (b : Bool) :
    process_data (JVal.bool b) = .error (.attributeError ("values")) := by rw [process_data.eq_def]

@[simp] theorem process_data_null :
    process_data JVal.null = .error (.attributeError ("values")) := by rw [process_data.eq_def]

@[simp] theorem process_data_time (t : Int) :
    process_data (JVal.time t) = .error (.attributeError ("values")) := by rw [process_data.eq_def]

@[simp] theorem process_data_arr (xs : List JVal) :
    process_data (JVal.arr xs) = .error (.attributeError ("values")) := by rw [process_data.eq_def]

@[simp] theorem processEntries_nil : processEntries [] = pure [] := by rw [processEntries.eq_def]

@[simp] theorem processEntries_cons_obj (k : String) (kvs : List (String × JVal))
    (rest : List (String × JVal)) :
    processEntries ((k, JVal.obj kvs) :: rest) = (do
      let v ← process_data (JVal.obj kvs)
      let rest' ← processEntries rest
      pure ((k, v) :: rest')) := by rw [processEntries.eq_def]

@[simp] theorem processEntries_cons_arr (k : String) (xs : List JVal)
    (rest : List (String × JVal)) :
    processEntries ((k, JVal.arr xs) :: rest) = (do
      let xs' ← processElems xs
      let rest' ← processEntries rest
      pure ((k, JVal.arr xs') :: rest')) := by rw [processEntries.eq_def]

@[simp] theorem processEntries_cons_str (k s : String) (rest : List (String × JVal)) :
    processEntries ((k, JVal.str s) :: rest) = (do
      let rest' ← processEntries rest
      pure ((k, JVal.str s) :: rest')) := by rw [processEntries.eq_def]

@[simp] theorem processEntries_cons_int (k : String) (n : Int) (rest : List (String × JVal)) :
    processEntries ((k, JVal.int n) :: rest) = (do
      let rest' ← processEntries rest
      pure ((k, JVal.int n) :: rest')) := by rw [processEntries.eq_def]

@[simp] theorem processEntries_cons_float (k : String) (q : Rat) (rest : List (String × JVal)) :
    processEntries ((k, JVal.float q) :: rest) = (do
      let rest' ← processEntries rest
      pure ((k, JVal.float q) :: rest')) := by rw [processEntries.eq_def]

@[simp] theorem processEntries_cons_bool (k : String) (b : Bool) (rest : List (String × JVal)) :
    processEntries ((k, JVal.bool b) :: rest) = (do
      let rest' ← processEntries rest
      pure ((k, JVal.bool b) :: rest')) := by rw [processEntries.eq_def]

@[simp] theorem processEntries_cons_null (k : String) (rest : List (String × JVal)) :
    processEntries ((k, JVal.null) :: rest) = (do
      let rest' ← processEntries rest
      pure ((k, JVal.null) :: rest')) := by rw [processEntries.eq_def]

@[simp] theorem processEntries_cons_time (k : String) (t : Int) (rest : List (String × JVal)) :
    processEntries ((k, JVal.time t) :: rest) = (do
      let rest' ← processEntries rest
      pure ((k, JVal.time t) :: rest')) := by rw [processEntries.eq_def]

@[simp] theorem processElems_nil : processElems [] = pure [] := by rw [processElems.eq_def]

@[simp] theorem processElems_cons (x : JVal) (rest : List JVal) :
    processElems (x :: rest) = (do
      let x' ← process_data x
      let rest' ← processElems rest
      pure (x' :: rest')) := by rw [processElems.eq_def]

/-- Python `s.startswith(p)`: literal prefix match on the text. -/
def pyStartswith (s p : String) : Bool :=
  List.isPrefixOf p.toList s.toList

/-- `TEMP_RESPONSE_FIX` (uEagle.py lines 213-220): wrap the raw response in
braces when it starts with one of the two known bare top-level keys. -/
def TEMP_RESPONSE_FIX (s : String) : String :=
  if pyStartswith s ("\"HistoryData\"") || pyStartswith s ("\"ScheduleList\"") then
    "\x7b" ++ s ++ "\x7d"
  else s

/-- `CMD_TOP_TEMPLATE.format(command)` (uEagle.py lines 9-11): a raw
triple-quoted template, so the `\n` sequences are literal backslash-n
characters and the line breaks and indentation are part of the string. -/
def CMD_TOP_TEMPLATE (command : String) : String :=
  "<Command>\\n\n                   <Name>" ++ command ++
    "</Name>\\n\n                   <Format>JSON</Format>"

/-- `make_cmd` (uEagle.py lines 52-59). -/
def make_cmd (command : String) (kws : List (String × String)) : String :=
  let cmd_str := CMD_TOP_TEMPLATE command
  let cmd_str := kws.foldl
    (fun acc kv => acc ++ "<" ++ kv.1 ++ ">" ++ kv.2 ++ "</" ++ kv.1 ++ ">\n") cmd_str
  cmd_str ++ "</Command>\n"

/-- `get_history_data` (uEagle.py lines 128-140), up to the request body
handed to the transport: build the keyword dictionary, validating the
optional frequency before the request is built.  The HTTP transport is out
of scope, so the result is the body `post_cmd` would send. -/
def get_history_data (start_time : Int) (end_time : Option Int) (frequency : Option Int) :
    Except PyErr String := do
  let kw : List (String × String) := [("StartTime", pyHex (start_time - EPOCH_DELTA))]
  let kw :=
    match end_time with
    | some et => kw ++ [("EndTime", pyHex (et - EPOCH_DELTA))]
    | none => kw
  let kw ←
    match frequency with
    | some f =>
      if SAFETY_ON && (65535 < f || f < 0) then
        Except.error (.valueError ("frequency must be between 0 and 65535 seconds"))
      else Except.ok (kw ++ [("Frequency", pyHex f)])
    | none => Except.ok kw
  pure (make_cmd ("get_history_data") kw)

/-- Keys of a dictionary, in order. -/
def keysOf (d : PyDict) : List String := d.map Prod.fst

/-- Inverting a successful `Except` bind. -/
theorem bind_ok {ε α β : Type} {x : Except ε α} {f : α → Except ε β} {b : β}
    (h : x >>= f = .ok b) : ∃ a, x = .ok a ∧ f a = .ok b := by
  cases x with
  | ok a => exact ⟨a, rfl, h⟩
  | error e => simp at h

@[simp] theorem hasKey_nil (k : String) : hasKey [] k = false := rfl

@[simp] theorem hasKey_cons (p : String × JVal) (rest : PyDict) (k : String) :
    hasKey (p :: rest) k = (p.1 == k || hasKey rest k) := by
  simp [hasKey]

/-- `hasKey` only looks at the key list. -/
theorem hasKey_eq_keysOf (d : PyDict) (k : String) :
    hasKey d k = (keysOf d).any (fun s => s == k) := by
  induction d with
  | nil => rfl
  | cons p rest ih => simp [keysOf, ih]

/-- Dictionaries with the same key list agree on `hasKey`. -/
theorem hasKey_congr (d₁ d₂ : PyDict) (hk : keysOf d₁ = keysOf d₂) (k : String) :
    hasKey d₁ k = hasKey d₂ k := by
  rw [hasKey_eq_keysOf, hasKey_eq_keysOf, hk]

/-- A successful lookup means the key is present. -/
theorem lookupKey_ok_hasKey {d : PyDict} {k : String} {v : JVal}
    (h : lookupKey d k = .ok v) : hasKey d k = true := by
  induction d with
  | nil => simp [lookupKey] at h
  | cons p rest ih =>
    by_cases hp : p.1 == k
    · simp [hp]
    · simp only [lookupKey, hp] at h
      simp [hp, ih h]

/-- Key presence after `setKey`. -/
theorem hasKey_setKey (d : PyDict) (k k' : String) (v : JVal) :
    hasKey (setKey d k v) k' = (k == k' || hasKey d k') := by
  induction d with
  | nil => simp [setKey]
  | cons p rest ih =>
    by_cases hp : p.1 == k
    · have : p.1 = k := by simpa using hp
      subst this
      by_cases hk : p.1 == k' <;> simp [setKey, hp, hk]
    · simp only [setKey, hp, if_false]
      by_cases hk : p.1 == k' <;> simp [hk, ih, Bool.or_left_comm, Bool.or_comm]

/-- The key being filtered out is absent afterwards. -/
theorem hasKey_filter_self (d : PyDict) (k : String) :
    hasKey (d.filter (fun p => !(p.1 == k))) k = false := by
  induction d with
  | nil => rfl
  | cons p rest ih =>
    by_cases hp : p.1 == k <;> simp [List.filter_cons, hp, ih]

/-- Filtering one key out does not affect presence of other keys. -/
theorem hasKey_filter_other (d : PyDict) (k k' : String) (hne : ¬(k' = k)) :
    hasKey (d.filter (fun p => !(p.1 == k))) k' = hasKey d k' := by
  induction d with
  | nil => rfl
  | cons p rest ih =>
    by_cases hp : p.1 == k
    · have hp' : p.1 = k := by simpa using hp
      have hpk' : (p.1 == k') = false := by
        rw [hp']
        simp only [beq_eq_false_iff_ne]
        exact fun h => hne h.symm
      simp [List.filter_cons, hp, hpk', ih]
    · simp [List.filter_cons, hp, ih]

/-- A key present after filtering was present before. -/
theorem hasKey_of_hasKey_filter {d : PyDict} {q : String × JVal → Bool} {k : String}
    (h : hasKey (d.filter q) k = true) : hasKey d k = true := by
  induction d with
  | nil => simp [hasKey] at h
  | cons p rest ih =>
    by_cases hq : q p
    · simp only [List.filter_cons, hq, if_true] at h
      simp only [hasKey_cons] at h ⊢
      rcases Bool.or_eq_true_iff.mp h with h' | h'
      · simp [h']
      · simp [ih h']
    · simp only [List.filter_cons, hq] at h
      simp [ih h]

/-- Successful deletion: the result is the filtered dictionary and the key
was present. -/
theorem delKey_ok {d d' : PyDict} {k : String} (h : delKey d k = .ok d') :
    hasKey d k = true ∧ d' = d.filter (fun p => !(p.1 == k)) := by
  by_cases hk : hasKey d k
  · simp only [delKey, hk, if_true] at h
    exact ⟨hk, by injection h with h'; exact h'.symm⟩
  · simp [delKey, hk] at h

/-- Key list is unchanged by `processEntries`. -/
theorem processEntries_keys : ∀ (l l' : List (String × JVal)),
    processEntries l = .ok l' → keysOf l' = keysOf l := by
  intro l
  induction l with
  | nil =>
    intro l' h
    simp only [processEntries_nil, exceptPureEqOk] at h
    injection h with h
    simp [← h]
  | cons p rest ih =>
    obtain ⟨k, v⟩ := p
    intro l' h
    cases v with
    | obj kvs =>
      rw [processEntries_cons_obj] at h
      obtain ⟨v', _, h⟩ := bind_ok h
      obtain ⟨rest', hrest, h⟩ := bind_ok h
      simp only [exceptPureEqOk] at h
      injection h with h
      simp [← h, keysOf]
      simpa [keysOf] using ih rest' hrest
    | arr xs =>
      rw [processEntries_cons_arr] at h
      obtain ⟨xs', _, h⟩ := bind_ok h
      obtain ⟨rest', hrest, h⟩ := bind_ok h
      simp only [exceptPureEqOk] at h
      injection h with h
      simp [← h, keysOf]
      simpa [keysOf] using ih rest' hrest
    | str s =>
      rw [processEntries_cons_str] at h
      obtain ⟨rest', hrest, h⟩ := bind_ok h
      simp only [exceptPureEqOk] at h
      injection h with h
      simp [← h, keysOf]
      simpa [keysOf] using ih rest' hrest
    | int n =>
      rw [processEntries_cons_int] at h
      obtain ⟨rest', hrest, h⟩ := bind_ok h
      simp only [exceptPureEqOk] at h
      injection h with h
      simp [← h, keysOf]
      simpa [keysOf] using ih rest' hrest
    | float q =>
      rw [processEntries_cons_float] at h
      obtain ⟨rest', hrest, h⟩ := bind_ok h
      simp only [exceptPureEqOk] at h
      injection h with h
      simp [← h, keysOf]
      simpa [keysOf] using ih rest' hrest
    | bool b =>
      rw [processEntries_cons_bool] at h
      obtain ⟨rest', hrest, h⟩ := bind_ok h
      simp only [exceptPureEqOk] at h
      injection h with h
      simp [← h, keysOf]
      simpa [keysOf] using ih rest' hrest
    | null =>
      rw [processEntries_cons_null] at h
      obtain ⟨rest', hrest, h⟩ := bind_ok h
      simp only [exceptPureEqOk] at h
      injection h with h
      simp [← h, keysOf]
      simpa [keysOf] using ih rest' hrest
    | time t =>
      rw [processEntries_cons_time] at h
      obtain ⟨rest', hrest, h⟩ := bind_ok h
      simp only [exceptPureEqOk] at h
      injection h with h
      simp [← h, keysOf]
      simpa [keysOf] using ih rest' hrest

/-- Removal of the five raw scaling keys, as performed by the tail of
`convert_demand`. -/
def remFive (d : PyDict) : PyDict :=
  ((((d.filter (fun p => !(p.1 == "Multiplier"))).filter
      (fun p => !(p.1 == "Divisor"))).filter
      (fun p => !(p.1 == "DigitsRight"))).filter
      (fun p => !(p.1 == "DigitsLeft"))).filter
      (fun p => !(p.1 == "SuppressLeadingZero"))

/-- The five deletions at the end of `convert_demand`: result shape and the
presence requirements of the two keys that are only touched by `del`. -/
theorem remFive_of_delKeys {d1 d2 d3 d4 d5 d' : PyDict}
    (h2 : delKey d1 ("Multiplier") = .ok d2) (h3 : delKey d2 ("Divisor") = .ok d3)
    (h4 : delKey d3 ("DigitsRight") = .ok d4) (h5 : delKey d4 ("DigitsLeft") = .ok d5)
    (h6 : delKey d5 ("SuppressLeadingZero") = .ok d') :
    d' = remFive d1 ∧ hasKey d1 ("DigitsLeft") = true ∧
      hasKey d1 ("SuppressLeadingZero") = true := by
  obtain ⟨hk2, he2⟩ := delKey_ok h2
  obtain ⟨hk3, he3⟩ := delKey_ok h3
  obtain ⟨hk4, he4⟩ := delKey_ok h4
  obtain ⟨hk5, he5⟩ := delKey_ok h5
  obtain ⟨hk6, he6⟩ := delKey_ok h6
  refine ⟨?_, ?_, ?_⟩
  · rw [he6, he5, he4, he3, he2]
    rfl
  · rw [he4, he3, he2] at hk5
    exact hasKey_of_hasKey_filter (hasKey_of_hasKey_filter (hasKey_of_hasKey_filter hk5))
  · rw [he5, he4, he3, he2] at hk6
    exact hasKey_of_hasKey_filter (hasKey_of_hasKey_filter
      (hasKey_of_hasKey_filter (hasKey_of_hasKey_filter hk6)))

/-- Inversion of a successful `convert_demand`: the keys it read and deleted
were present, and the result is the branch update followed by removal of
the five raw keys. -/
theorem convert_demand_ok_inv {d d' : PyDict} (h : convert_demand d = .ok d') :
    (hasKey d ("Multiplier") = true ∧ hasKey d ("Divisor") = true ∧
     hasKey d ("DigitsRight") = true ∧ hasKey d ("DigitsLeft") = true ∧
     hasKey d ("SuppressLeadingZero") = true ∧
     (hasKey d ("Demand") = true ∨
       (hasKey d ("SummationDelivered") = true ∧ hasKey d ("SummationReceived") = true))) ∧
    ∃ d1 : PyDict,
      ((∃ q : Rat, d1 = setKey d ("Demand") (JVal.float q)) ∨
        (∃ q1 q2 : Rat, d1 = setKey (setKey d ("SummationDelivered") (JVal.float q1))
          ("SummationReceived") (JVal.float q2))) ∧
      d' = remFive d1 := by
  simp only [convert_demand] at h
  obtain ⟨mv, hmv, h⟩ := bind_ok h
  obtain ⟨m, hm, h⟩ := bind_ok h
  obtain ⟨dvv, hdvv, h⟩ := bind_ok h
  obtain ⟨dv, hdv, h⟩ := bind_ok h
  obtain ⟨drv, hdrv, h⟩ := bind_ok h
  obtain ⟨n_dec, hndec, h⟩ := bind_ok h
  by_cases hDem : hasKey d ("Demand") = true
  · rw [if_pos hDem] at h
    obtain ⟨demv, hdemv, h⟩ := bind_ok h
    obtain ⟨nid, hnid, h⟩ := bind_ok h
    obtain ⟨d1, hd1, h⟩ := bind_ok h
    simp only [exceptPureEqOk] at hd1
    injection hd1 with hd1
    obtain ⟨d2, hd2, h⟩ := bind_ok h
    obtain ⟨d3, hd3, h⟩ := bind_ok h
    obtain ⟨d4, hd4, h⟩ := bind_ok h
    obtain ⟨d5, hd5, h⟩ := bind_ok h
    obtain ⟨hrem, hDL1, hSLZ1⟩ := remFive_of_delKeys hd2 hd3 hd4 hd5 h
    rw [← hd1] at hDL1 hSLZ1
    rw [hasKey_setKey] at hDL1 hSLZ1
    simp only [show (("Demand" : String) == "DigitsLeft") = false from by decide,
      show (("Demand" : String) == "SuppressLeadingZero") = false from by decide,
      Bool.false_or] at hDL1 hSLZ1
    exact ⟨⟨lookupKey_ok_hasKey hmv, lookupKey_ok_hasKey hdvv, lookupKey_ok_hasKey hdrv,
      hDL1, hSLZ1, Or.inl hDem⟩, d1, Or.inl ⟨_, hd1.symm⟩, hrem⟩
  · rw [if_neg hDem] at h
    obtain ⟨sdv, hsdv, h⟩ := bind_ok h
    obtain ⟨sd, hsd, h⟩ := bind_ok h
    obtain ⟨srv, hsrv, h⟩ := bind_ok h
    obtain ⟨sr, hsr, h⟩ := bind_ok h
    obtain ⟨d1, hd1, h⟩ := bind_ok h
    simp only [exceptPureEqOk] at hd1
    injection hd1 with hd1
    obtain ⟨d2, hd2, h⟩ := bind_ok h
    obtain ⟨d3, hd3, h⟩ := bind_ok h
    obtain ⟨d4, hd4, h⟩ := bind_ok h
    obtain ⟨d5, hd5, h⟩ := bind_ok h
    obtain ⟨hrem, hDL1, hSLZ1⟩ := remFive_of_delKeys hd2 hd3 hd4 hd5 h
    rw [← hd1] at hDL1 hSLZ1
    rw [hasKey_setKey, hasKey_setKey] at hDL1 hSLZ1
    simp only [show (("SummationReceived" : String) == "DigitsLeft") = false from by decide,
      show (("SummationReceived" : String) == "SuppressLeadingZero") = false from by decide,
      show (("SummationDelivered" : String) == "DigitsLeft") = false from by decide,
      show (("SummationDelivered" : String) == "SuppressLeadingZero") = false from by decide,
      Bool.false_or] at hDL1 hSLZ1
    have hSD : hasKey d ("SummationDelivered") = true := lookupKey_ok_hasKey hsdv
    have hSR : hasKey d ("SummationReceived") = true := by
      have := lookupKey_ok_hasKey hsrv
      rw [hasKey_setKey] at this
      simpa [show (("SummationDelivered" : String) == "SummationReceived") = false
        from by decide] using this
    exact ⟨⟨lookupKey_ok_hasKey hmv, lookupKey_ok_hasKey hdvv, lookupKey_ok_hasKey hdrv,
      hDL1, hSLZ1, Or.inr ⟨hSD, hSR⟩⟩, d1, Or.inr ⟨_, _, hd1.symm⟩, hrem⟩

/-- Inversion of a successful `convert_price`: the trigger and its dependent
keys were present, and the result replaces `Price` and `Currency` and
filters out `TrailingDigits`. -/
theorem convert_price_ok_inv {d d' : PyDict} (h : convert_price d = .ok d') :
    hasKey d ("Price") = true ∧ hasKey d ("TrailingDigits") = true ∧
    hasKey d ("Currency") = true ∧
    ∃ q : Rat, ∃ c : Int,
      d' = (setKey (setKey d ("Price") (JVal.float q)) ("Currency") (JVal.int c)).filter
        (fun p => !(p.1 == "TrailingDigits")) := by
  simp only [convert_price] at h
  obtain ⟨pv, hpv, h⟩ := bind_ok h
  obtain ⟨p, hp, h⟩ := bind_ok h
  obtain ⟨tdv, htdv, h⟩ := bind_ok h
  obtain ⟨td, htd, h⟩ := bind_ok h
  obtain ⟨cv, hcv, h⟩ := bind_ok h
  obtain ⟨c, hc, h⟩ := bind_ok h
  obtain ⟨hkTD, heTD⟩ := delKey_ok h
  have hCur : hasKey d ("Currency") = true := by
    have := lookupKey_ok_hasKey hcv
    rw [hasKey_setKey] at this
    simpa [show (("Price" : String) == "Currency") = false from by decide] using this
  exact ⟨lookupKey_ok_hasKey hpv, lookupKey_ok_hasKey htdv, hCur, _, _, heTD⟩

/-- Inversion of the demand stage. -/
theorem demand_stage_ok_inv {d d' : PyDict} (h : demand_stage d = .ok d') :
    (hasKey d ("Multiplier") = false ∧ d' = d) ∨
      (hasKey d ("Multiplier") = true ∧ convert_demand d = .ok d') := by
  by_cases hM : hasKey d ("Multiplier") = true
  · rw [demand_stage, if_pos hM] at h
    exact Or.inr ⟨hM, h⟩
  · rw [demand_stage, if_neg hM] at h
    simp only [exceptPureEqOk] at h
    injection h with h
    exact Or.inl ⟨by simpa using hM, h.symm⟩

/-- Inversion of the price stage. -/
theorem price_stage_ok_inv {d d' : PyDict} (h : price_stage d = .ok d') :
    (hasKey d ("Price") = false ∧ d' = d) ∨
      (hasKey d ("Price") = true ∧ convert_price d = .ok d') := by
  by_cases hP : hasKey d ("Price") = true
  · rw [price_stage, if_pos hP] at h
    exact Or.inr ⟨hP, h⟩
  · rw [price_stage, if_neg hP] at h
    simp only [exceptPureEqOk] at h
    injection h with h
    exact Or.inl ⟨by simpa using hP, h.symm⟩

/-- Inversion of the timestamp stage. -/
theorem timestamp_stage_ok_inv {d d' : PyDict} (h : timestamp_stage d = .ok d') :
    (hasKey d ("TimeStamp") = false ∧ d' = d) ∨
      (hasKey d ("TimeStamp") = true ∧
        ∃ t : Int, d' = setKey d ("TimeStamp") (JVal.time t)) := by
  by_cases hT : hasKey d ("TimeStamp") = true
  · rw [timestamp_stage, if_pos hT] at h
    obtain ⟨tv, htv, h⟩ := bind_ok h
    obtain ⟨t, ht, h⟩ := bind_ok h
    simp only [exceptPureEqOk] at h
    injection h with h
    exact Or.inr ⟨hT, _, h.symm⟩
  · rw [timestamp_stage, if_neg hT] at h
    simp only [exceptPureEqOk] at h
    injection h with h
    exact Or.inl ⟨by simpa using hT, h.symm⟩

/-- Decomposition of a successful `process_data` on a dictionary into its
four stages: entry recursion, demand/summation rule, price rule, timestamp
rule. -/
theorem process_data_obj_ok_decomp {kvs : List (String × JVal)} {w : JVal}
    (h : process_data (JVal.obj kvs) = .ok w) :
    ∃ d1 d2 d3 d4 : PyDict, processEntries kvs = .ok d1 ∧
      demand_stage d1 = .ok d2 ∧ price_stage d2 = .ok d3 ∧
      timestamp_stage d3 = .ok d4 ∧ w = .obj d4 := by
  rw [process_data_obj] at h
  obtain ⟨d1, hd1, h⟩ := bind_ok h
  obtain ⟨d2, hd2, h⟩ := bind_ok h
  obtain ⟨d3, hd3, h⟩ := bind_ok h
  obtain ⟨d4, hd4, h⟩ := bind_ok h
  simp only [exceptPureEqOk] at h
  injection h with h
  exact ⟨d1, d2, d3, d4, hd1, hd2, hd3, hd4, h.symm⟩

/-- Claim C5: for every raw response text `s`, the envelope repair returns
`s` wrapped in an opening and a closing brace exactly when `s` begins with the literal prefix
`"HistoryData"` or `"ScheduleList"` (with the surrounding double quotes),
and returns `s` unchanged otherwise; the decision is a literal prefix
match on the text. -/
theorem spec_C5 (s : String) :
    ((pyStartswith s ("\"HistoryData\"") ∨ pyStartswith s ("\"ScheduleList\"")) →
      TEMP_RESPONSE_FIX s = "\x7b" ++ s ++ "\x7d") ∧
    (¬(pyStartswith s ("\"HistoryData\"") ∨ pyStartswith s ("\"ScheduleList\"")) →
      TEMP_RESPONSE_FIX s = s) ∧
    (TEMP_RESPONSE_FIX s = "\x7b" ++ s ++ "\x7d" →
      (pyStartswith s ("\"HistoryData\"") ∨ pyStartswith s ("\"ScheduleList\""))) := by
  have hlen : ¬(s = "\x7b" ++ s ++ "\x7d") := by
    intro hcontra
    have := congrArg String.length hcontra
    rw [String.length_append, String.length_append] at this
    simp only [show ("\x7b" : String).length = 1 from rfl,
      show ("\x7d" : String).length = 1 from rfl] at this
    omega
  refine ⟨?_, ?_, ?_⟩
  · intro h
    rw [TEMP_RESPONSE_FIX, if_pos (by simpa [Bool.or_eq_true] using h)]
  · intro h
    rw [TEMP_RESPONSE_FIX, if_neg (by simpa [Bool.or_eq_true] using h)]
  · intro h
    by_cases hc : (pyStartswith s ("\"HistoryData\"") ∨ pyStartswith s ("\"ScheduleList\""))
    · exact hc
    · rw [TEMP_RESPONSE_FIX, if_neg (by simpa [Bool.or_eq_true] using hc)] at h
      exact absurd h hlen

/-- Witness for C5 at concrete inputs: a bare `"HistoryData"` payload is
wrapped in braces, and an ordinary JSON object passes through unchanged. -/
theorem spec_C5_witness :
    TEMP_RESPONSE_FIX ("\"HistoryData\": [1]") =
      "\x7b" ++ "\"HistoryData\": [1]" ++ "\x7d" ∧
    TEMP_RESPONSE_FIX ("\x7b\"get_price\": 1\x7d") = "\x7b\"get_price\": 1\x7d" :=
  ⟨(spec_C5 _).1 (Or.inl (by decide)),
    (spec_C5 _).2.1 (by decide)⟩

/-- Claim C8: with a supplied frequency, `get_history_data` fails fast with
the ValueError (the spec's InvalidParameter) before any request body is
built when the frequency is outside `[0, 65535]`, and builds the request
body when the frequency is inside the range. -/
theorem spec_C8 (start_time : Int) (end_time : Option Int) (f : Int) :
    ((65535 < f ∨ f < 0) →
      get_history_data start_time end_time (some f) =
        .error (.valueError ("frequency must be between 0 and 65535 seconds"))) ∧
    (0 ≤ f → f ≤ 65535 →
      ∃ body : String, get_history_data start_time end_time (some f) = .ok body) := by
  constructor
  · intro h
    cases end_time with
    | none =>
      simp only [get_history_data, SAFETY_ON, Bool.true_and]
      rw [if_pos (by simpa [decide_eq_true_eq] using h)]
      rfl
    | some et =>
      simp only [get_history_data, SAFETY_ON, Bool.true_and]
      rw [if_pos (by simpa [decide_eq_true_eq] using h)]
      rfl
  · intro h0 h1
    cases end_time with
    | none =>
      simp only [get_history_data, SAFETY_ON, Bool.true_and]
      rw [if_neg (by simp [decide_eq_true_eq]; omega)]
      exact ⟨_, rfl⟩
    | some et =>
      simp only [get_history_data, SAFETY_ON, Bool.true_and]
      rw [if_neg (by simp [decide_eq_true_eq]; omega)]
      exact ⟨_, rfl⟩

/-- Witness for C8: frequency 70000 is rejected with the ValueError, and
frequency 65535 produces a request body. -/
theorem spec_C8_witness :
    get_history_data 946684800 none (some 70000) =
      .error (.valueError ("frequency must be between 0 and 65535 seconds")) ∧
    ∃ body : String, get_history_data 946684800 none (some 65535) = .ok body :=
  ⟨(spec_C8 946684800 none 70000).1 (Or.inl (by norm_num)),
    (spec_C8 946684800 none 65535).2 (by norm_num) (by norm_num)⟩

/-- Claim C3: for every signed 32-bit integer `n`, the decode performed by
the `Demand` branch of `convert_demand` (parse the hex text as an unsigned
value, pack it as an unsigned 32-bit word, unpack as signed 32-bit) maps
any text encoding `n`'s two's-complement bit pattern `n % 2^32` back to
`n`. -/
theorem spec_C3 (n : Int) (s : String)
    (h1 : -2147483648 ≤ n) (h2 : n < 2147483648)
    (hs : pyIntBase0 (JVal.str s) = .ok (n % 4294967296)) :
    decodeDemandField (JVal.str s) = .ok n := by
  have hub : n % 4294967296 < 4294967296 := Int.emod_lt_of_pos _ (by norm_num)
  have hlb : 0 ≤ n % 4294967296 := Int.emod_nonneg _ (by norm_num)
  rw [decodeDemandField]
  rw [hs]
  simp only [exceptOkBind]
  rw [pack_I, if_neg (by omega)]
  simp only [exceptOkBind, unpack_i]
  have hx : ((n % 4294967296).toNat : Int) = n % 4294967296 := Int.toNat_of_nonneg hlb
  refine congrArg Except.ok ?_
  split
  · omega
  · omega

/-- Witness for C3: the hex text `0xFFFFFFFF` parses to the bit pattern of
`-1` and decodes to `-1` before scaling. -/
theorem spec_C3_witness :
    pyIntBase0 (JVal.str ("0xFFFFFFFF")) = .ok ((-1) % 4294967296) ∧
    decodeDemandField (JVal.str ("0xFFFFFFFF")) = .ok (-1) :=
  ⟨by decide, spec_C3 (-1) ("0xFFFFFFFF") (by norm_num) (by norm_num) (by decide)⟩

/-- Claim C10: on a demand record whose `Demand` field parses to an integer
outside `[0, 2^32)`, the 32-bit pack step inside `convert_demand` raises
struct.error, so the whole conversion errors with it. -/
theorem spec_C10 (ms ds rs dems : String) (dl slz : JVal) (m dv r n : Int)
    (hm : pyIntBase0 (JVal.str ms) = .ok m)
    (hdv : pyIntBase0 (JVal.str ds) = .ok dv)
    (hr : pyIntBase0 (JVal.str rs) = .ok r)
    (hn : pyIntBase0 (JVal.str dems) = .ok n)
    (hout : n < 0 ∨ 4294967296 ≤ n) :
    convert_demand [("Multiplier", JVal.str ms), ("Divisor", JVal.str ds),
      ("DigitsRight", JVal.str rs), ("Demand", JVal.str dems),
      ("DigitsLeft", dl), ("SuppressLeadingZero", slz)] =
      .error (.structError ("argument out of range")) := by
  have hpack : pack_I n = .error (.structError ("argument out of range")) := by
    rw [pack_I, if_pos (by omega)]
  simp +decide [convert_demand, decodeDemandField, lookupKey, hasKey,
    hm, hdv, hr, hn, hpack]

/-- Witness for C10: a `Demand` value of `0x100000000` (exactly `2^32`)
makes `convert_demand` fail with struct.error. -/
theorem spec_C10_witness :
    convert_demand [("Multiplier", JVal.str ("0x1")), ("Divisor", JVal.str ("0x1")),
      ("DigitsRight", JVal.str ("0x0")), ("Demand", JVal.str ("0x100000000")),
      ("DigitsLeft", JVal.str ("0x6")), ("SuppressLeadingZero", JVal.str ("Y"))] =
      .error (.structError ("argument out of range")) :=
  spec_C10 ("0x1") ("0x1") ("0x0") ("0x100000000") (JVal.str ("0x6")) (JVal.str ("Y"))
    1 1 0 4294967296 (by decide) (by decide) (by decide) (by decide)
    (Or.inr (by norm_num))

/-- Claim C4: whenever the demand/summation rule fires with `Multiplier`
and `Divisor` parsing to non-negative `m` and `dv`, the scaling factor used
is `max(m,1) / max(dv,1)` (zero replaced by one on either side, so the
divisor is never zero): shown on both the summation branch and, via a
decoded demand value, the demand branch. -/
theorem spec_C4 (ms ds rs sds srs dems : String) (dl slz : JVal)
    (m dv r sd sr nid : Int)
    (hm : pyIntBase0 (JVal.str ms) = .ok m)
    (hdv : pyIntBase0 (JVal.str ds) = .ok dv)
    (hr : pyIntBase0 (JVal.str rs) = .ok r)
    (hsd : pyIntBase0 (JVal.str sds) = .ok sd)
    (hsr : pyIntBase0 (JVal.str srs) = .ok sr)
    (hdec : decodeDemandField (JVal.str dems) = .ok nid)
    (hm0 : 0 ≤ m) (hdv0 : 0 ≤ dv) :
    (1 : Int) ≤ max dv 1 ∧ (((max dv 1 : Int) : Rat) ≠ 0) ∧
    convert_demand [("Multiplier", JVal.str ms), ("Divisor", JVal.str ds),
      ("DigitsRight", JVal.str rs), ("DigitsLeft", dl), ("SuppressLeadingZero", slz),
      ("SummationDelivered", JVal.str sds), ("SummationReceived", JVal.str srs)] =
      .ok [("SummationDelivered", JVal.float (pyRound ((sd : Rat) *
          (((max m 1 : Int) : Rat) / ((max dv 1 : Int) : Rat))) r)),
        ("SummationReceived", JVal.float (pyRound ((sr : Rat) *
          (((max m 1 : Int) : Rat) / ((max dv 1 : Int) : Rat))) r))] ∧
    convert_demand [("Multiplier", JVal.str ms), ("Divisor", JVal.str ds),
      ("DigitsRight", JVal.str rs), ("Demand", JVal.str dems),
      ("DigitsLeft", dl), ("SuppressLeadingZero", slz)] =
      .ok [("Demand", JVal.float (pyRound ((nid : Rat) *
          (((max m 1 : Int) : Rat) / ((max dv 1 : Int) : Rat))) r))] := by
  refine ⟨le_max_right dv 1, ?_, ?_, ?_⟩
  · have h1 : (1 : Int) ≤ max dv 1 := le_max_right dv 1
    intro hcontra
    rw [Int.cast_eq_zero] at hcontra
    omega
  · simp +decide [convert_demand, lookupKey, hasKey, setKey, delKey, List.filter,
      hm, hdv, hr, hsd, hsr]
  · simp +decide [convert_demand, lookupKey, hasKey, setKey, delKey,
      List.filter, hm, hdv, hr, hdec]

/-- Witness for C4: with `Multiplier = 0x0` and `Divisor = 0x0` both max
out to 1, giving factor 1, and the conversion succeeds with no division by
zero (demand value `0x5` decodes to 5). -/
theorem spec_C4_witness :
    (1 : Int) ≤ max 0 1 ∧ (((max 0 1 : Int) : Rat) ≠ 0) ∧
    convert_demand [("Multiplier", JVal.str ("0x0")), ("Divisor", JVal.str ("0x0")),
      ("DigitsRight", JVal.str ("0x1")), ("DigitsLeft", JVal.str ("0x4")),
      ("SuppressLeadingZero", JVal.str ("Y")),
      ("SummationDelivered", JVal.str ("0xA")), ("SummationReceived", JVal.str ("0x0"))] =
      .ok [("SummationDelivered", JVal.float (pyRound ((10 : Rat) *
          (((max 0 1 : Int) : Rat) / ((max 0 1 : Int) : Rat))) 1)),
        ("SummationReceived", JVal.float (pyRound ((0 : Rat) *
          (((max 0 1 : Int) : Rat) / ((max 0 1 : Int) : Rat))) 1))] ∧
    convert_demand [("Multiplier", JVal.str ("0x0")), ("Divisor", JVal.str ("0x0")),
      ("DigitsRight", JVal.str ("0x1")), ("Demand", JVal.str ("0x5")),
      ("DigitsLeft", JVal.str ("0x4")), ("SuppressLeadingZero", JVal.str ("Y"))] =
      .ok [("Demand", JVal.float (pyRound ((5 : Rat) *
          (((max 0 1 : Int) : Rat) / ((max 0 1 : Int) : Rat))) 1))] := by
  have h := spec_C4 ("0x0") ("0x0") ("0x1") ("0xA") ("0x0") ("0x5")
    (JVal.str ("0x4")) (JVal.str ("Y")) 0 0 1 10 0 5
    (by decide) (by decide) (by decide) (by decide) (by decide)
    (by decide) (by norm_num) (by norm_num)
  exact_mod_cast h

/-- Turn key inequality into a `==`-is-false fact. -/
theorem strBeqFalseOfNe {a b : String} (h : ¬(b = a)) : (a == b) = false := by
  simp only [beq_eq_false_iff_ne]
  exact fun hh => h hh.symm

/-- After `remFive`, none of the five raw scaling keys is present. -/
theorem remFive_hasKey_five (d : PyDict) :
    hasKey (remFive d) ("Multiplier") = false ∧ hasKey (remFive d) ("Divisor") = false ∧
    hasKey (remFive d) ("DigitsRight") = false ∧ hasKey (remFive d) ("DigitsLeft") = false ∧
    hasKey (remFive d) ("SuppressLeadingZero") = false := by
  unfold remFive
  refine ⟨?_, ?_, ?_, ?_, ?_⟩
  · rw [hasKey_filter_other _ _ _ (by decide), hasKey_filter_other _ _ _ (by decide),
      hasKey_filter_other _ _ _ (by decide), hasKey_filter_other _ _ _ (by decide)]
    exact hasKey_filter_self d _
  · rw [hasKey_filter_other _ _ _ (by decide), hasKey_filter_other _ _ _ (by decide),
      hasKey_filter_other _ _ _ (by decide)]
    exact hasKey_filter_self _ _
  · rw [hasKey_filter_other _ _ _ (by decide), hasKey_filter_other _ _ _ (by decide)]
    exact hasKey_filter_self _ _
  · rw [hasKey_filter_other _ _ _ (by decide)]
    exact hasKey_filter_self _ _
  · exact hasKey_filter_self _ _

/-- `remFive` does not affect keys other than the five raw scaling keys. -/
theorem remFive_hasKey_other (d : PyDict) (k : String)
    (h1 : ¬(k = "Multiplier")) (h2 : ¬(k = "Divisor")) (h3 : ¬(k = "DigitsRight"))
    (h4 : ¬(k = "DigitsLeft")) (h5 : ¬(k = "SuppressLeadingZero")) :
    hasKey (remFive d) k = hasKey d k := by
  unfold remFive
  rw [hasKey_filter_other _ _ _ h5, hasKey_filter_other _ _ _ h4,
    hasKey_filter_other _ _ _ h3, hasKey_filter_other _ _ _ h2,
    hasKey_filter_other _ _ _ h1]

/-- The demand stage does not affect presence of keys outside its working
set. -/
theorem demand_stage_preserves {d d' : PyDict} (h : demand_stage d = .ok d') (k : String)
    (h1 : ¬(k = "Multiplier")) (h2 : ¬(k = "Divisor")) (h3 : ¬(k = "DigitsRight"))
    (h4 : ¬(k = "DigitsLeft")) (h5 : ¬(k = "SuppressLeadingZero"))
    (h6 : ¬(k = "Demand")) (h7 : ¬(k = "SummationDelivered"))
    (h8 : ¬(k = "SummationReceived")) :
    hasKey d' k = hasKey d k := by
  rcases demand_stage_ok_inv h with ⟨-, rfl⟩ | ⟨-, hcd⟩
  · rfl
  · obtain ⟨-, dd1, hshape, rfl⟩ := convert_demand_ok_inv hcd
    rw [remFive_hasKey_other _ _ h1 h2 h3 h4 h5]
    rcases hshape with ⟨q, rfl⟩ | ⟨q1, q2, rfl⟩
    · rw [hasKey_setKey, strBeqFalseOfNe h6, Bool.false_or]
    · rw [hasKey_setKey, hasKey_setKey, strBeqFalseOfNe h8, Bool.false_or,
        strBeqFalseOfNe h7, Bool.false_or]

/-- The price stage does not affect presence of keys outside its working
set. -/
theorem price_stage_preserves {d d' : PyDict} (h : price_stage d = .ok d') (k : String)
    (h1 : ¬(k = "Price")) (h2 : ¬(k = "TrailingDigits")) (h3 : ¬(k = "Currency")) :
    hasKey d' k = hasKey d k := by
  rcases price_stage_ok_inv h with ⟨-, rfl⟩ | ⟨-, hcp⟩
  · rfl
  · obtain ⟨-, -, -, q, c, rfl⟩ := convert_price_ok_inv hcp
    rw [hasKey_filter_other _ _ _ h2, hasKey_setKey, hasKey_setKey,
      strBeqFalseOfNe h3, Bool.false_or, strBeqFalseOfNe h1, Bool.false_or]

/-- The timestamp stage does not affect presence of keys other than
`TimeStamp`. -/
theorem timestamp_stage_preserves {d d' : PyDict} (h : timestamp_stage d = .ok d')
    (k : String) (h1 : ¬(k = "TimeStamp")) :
    hasKey d' k = hasKey d k := by
  rcases timestamp_stage_ok_inv h with ⟨-, rfl⟩ | ⟨-, t, rfl⟩
  · rfl
  · rw [hasKey_setKey, strBeqFalseOfNe h1, Bool.false_or]

/-- Claim C6: on any record that normalization completes successfully on,
if `Multiplier` was present then none of the five raw scaling keys remains,
and if `TrailingDigits` and `Price` were both present (so the price rule
fired) then `TrailingDigits` is gone. -/
theorem spec_C6 (kvs kvs' : List (String × JVal))
    (h : process_data (JVal.obj kvs) = .ok (JVal.obj kvs')) :
    (hasKey kvs ("Multiplier") = true →
      hasKey kvs' ("Multiplier") = false ∧ hasKey kvs' ("Divisor") = false ∧
      hasKey kvs' ("DigitsRight") = false ∧ hasKey kvs' ("DigitsLeft") = false ∧
      hasKey kvs' ("SuppressLeadingZero") = false) ∧
    (hasKey kvs ("TrailingDigits") = true → hasKey kvs ("Price") = true →
      hasKey kvs' ("TrailingDigits") = false) := by
  obtain ⟨d1, d2, d3, d4, hpe, hds, hps, hts, hw⟩ := process_data_obj_ok_decomp h
  injection hw with hw
  subst hw
  have hkeys := processEntries_keys _ _ hpe
  constructor
  · intro hM
    have hM1 : hasKey d1 ("Multiplier") = true := by
      rw [hasKey_congr d1 kvs hkeys]
      exact hM
    rcases demand_stage_ok_inv hds with ⟨hMf, -⟩ | ⟨-, hcd⟩
    · rw [hM1] at hMf
      exact absurd hMf (by simp)
    · obtain ⟨-, dd1, -, hrem⟩ := convert_demand_ok_inv hcd
      subst hrem
      have h5 := remFive_hasKey_five dd1
      refine ⟨?_, ?_, ?_, ?_, ?_⟩ <;>
        rw [timestamp_stage_preserves hts _ (by decide),
          price_stage_preserves hps _ (by decide) (by decide) (by decide)]
      · exact h5.1
      · exact h5.2.1
      · exact h5.2.2.1
      · exact h5.2.2.2.1
      · exact h5.2.2.2.2
  · intro hTD hP
    have hTD1 : hasKey d1 ("TrailingDigits") = true := by
      rw [hasKey_congr d1 kvs hkeys]
      exact hTD
    have hP1 : hasKey d1 ("Price") = true := by
      rw [hasKey_congr d1 kvs hkeys]
      exact hP
    have hP2 : hasKey d2 ("Price") = true := by
      rw [demand_stage_preserves hds _ (by decide) (by decide) (by decide) (by decide)
        (by decide) (by decide) (by decide) (by decide)]
      exact hP1
    rcases price_stage_ok_inv hps with ⟨hPf, -⟩ | ⟨-, hcp⟩
    · rw [hP2] at hPf
      exact absurd hPf (by simp)
    · obtain ⟨-, -, -, q, c, hshape⟩ := convert_price_ok_inv hcp
      subst hshape
      rw [timestamp_stage_preserves hts _ (by decide)]
      exact hasKey_filter_self _ _

/-- Witness for C6: a record carrying both the demand/summation scaling
keys and the price keys is normalized with all six raw keys removed. -/
theorem spec_C6_witness :
    (hasKey [("Multiplier", JVal.str ("0x2")), ("Divisor", JVal.str ("0x0")),
        ("DigitsRight", JVal.str ("0x1")), ("DigitsLeft", JVal.str ("0x4")),
        ("SuppressLeadingZero", JVal.str ("Y")),
        ("SummationDelivered", JVal.str ("0xA")), ("SummationReceived", JVal.str ("0x0")),
        ("Price", JVal.str ("0x3E8")), ("TrailingDigits", JVal.str ("0x2")),
        ("Currency", JVal.str ("0x348"))] ("Multiplier") = true) ∧
    (hasKey [("SummationDelivered", JVal.float 20), ("SummationReceived", JVal.float 0),
        ("Price", JVal.float 10), ("Currency", JVal.int 840)] ("Multiplier") = false ∧
      hasKey [("SummationDelivered", JVal.float 20), ("SummationReceived", JVal.float 0),
        ("Price", JVal.float 10), ("Currency", JVal.int 840)] ("Divisor") = false ∧
      hasKey [("SummationDelivered", JVal.float 20), ("SummationReceived", JVal.float 0),
        ("Price", JVal.float 10), ("Currency", JVal.int 840)] ("DigitsRight") = false ∧
      hasKey [("SummationDelivered", JVal.float 20), ("SummationReceived", JVal.float 0),
        ("Price", JVal.float 10), ("Currency", JVal.int 840)] ("DigitsLeft") = false ∧
      hasKey [("SummationDelivered", JVal.float 20), ("SummationReceived", JVal.float 0),
        ("Price", JVal.float 10), ("Currency", JVal.int 840)]
        ("SuppressLeadingZero") = false) ∧
    hasKey [("SummationDelivered", JVal.float 20), ("SummationReceived", JVal.float 0),
      ("Price", JVal.float 10), ("Currency", JVal.int 840)] ("TrailingDigits") = false := by
  have hrun : process_data (JVal.obj [("Multiplier", JVal.str ("0x2")),
      ("Divisor", JVal.str ("0x0")), ("DigitsRight", JVal.str ("0x1")),
      ("DigitsLeft", JVal.str ("0x4")), ("SuppressLeadingZero", JVal.str ("Y")),
      ("SummationDelivered", JVal.str ("0xA")), ("SummationReceived", JVal.str ("0x0")),
      ("Price", JVal.str ("0x3E8")), ("TrailingDigits", JVal.str ("0x2")),
      ("Currency", JVal.str ("0x348"))]) =
      .ok (JVal.obj [("SummationDelivered", JVal.float 20),
        ("SummationReceived", JVal.float 0), ("Price", JVal.float 10),
        ("Currency", JVal.int 840)]) := by
    simp +decide [process_data_obj, demand_stage, price_stage, timestamp_stage,
      convert_demand, convert_price, lookupKey, hasKey, setKey, delKey,
      show pyIntBase0 (JVal.str ("0x2")) = .ok 2 from by decide,
      show pyIntBase0 (JVal.str ("0x0")) = .ok 0 from by decide,
      show pyIntBase0 (JVal.str ("0x1")) = .ok 1 from by decide,
      show pyIntBase0 (JVal.str ("0xA")) = .ok 10 from by decide,
      show pyIntBase0 (JVal.str ("0x3E8")) = .ok 1000 from by decide,
      show pyIntBase0 (JVal.str ("0x348")) = .ok 840 from by decide]
    constructor
    · norm_num [pyRound, show pow10 1 = 10 from rfl]
    constructor
    · norm_num [pyRound, show pow10 1 = 10 from rfl]
    · norm_num [show pow10 2 = 100 from rfl]
  have h := spec_C6 _ _ hrun
  exact ⟨by decide, h.1 (by decide), h.2 (by decide) (by decide)⟩

/-- A successful `process_data` on a record requires every dependent key of
each rule whose trigger key is present. -/
theorem process_data_obj_ok_requires {kvs : List (String × JVal)} {w : JVal}
    (h : process_data (JVal.obj kvs) = .ok w) :
    (hasKey kvs ("Multiplier") = true →
      hasKey kvs ("Divisor") = true ∧ hasKey kvs ("DigitsRight") = true ∧
      hasKey kvs ("DigitsLeft") = true ∧ hasKey kvs ("SuppressLeadingZero") = true ∧
      (hasKey kvs ("Demand") = true ∨
        (hasKey kvs ("SummationDelivered") = true ∧
          hasKey kvs ("SummationReceived") = true))) ∧
    (hasKey kvs ("Price") = true →
      hasKey kvs ("TrailingDigits") = true ∧ hasKey kvs ("Currency") = true) := by
  obtain ⟨d1, d2, d3, d4, hpe, hds, hps, hts, -⟩ := process_data_obj_ok_decomp h
  have hkeys := processEntries_keys _ _ hpe
  have hcongr : ∀ k : String, hasKey d1 k = hasKey kvs k := fun k => hasKey_congr d1 kvs hkeys k
  constructor
  · intro hM
    have hM1 : hasKey d1 ("Multiplier") = true := by rw [hcongr]; exact hM
    rcases demand_stage_ok_inv hds with ⟨hMf, -⟩ | ⟨-, hcd⟩
    · rw [hM1] at hMf
      exact absurd hMf (by simp)
    · obtain ⟨⟨-, hD, hDR, hDL, hSLZ, hsum⟩, -⟩ := convert_demand_ok_inv hcd
      rw [hcongr] at hD hDR hDL hSLZ
      rcases hsum with hDem | ⟨hSD, hSR⟩
      · rw [hcongr] at hDem
        exact ⟨hD, hDR, hDL, hSLZ, Or.inl hDem⟩
      · rw [hcongr] at hSD hSR
        exact ⟨hD, hDR, hDL, hSLZ, Or.inr ⟨hSD, hSR⟩⟩
  · intro hP
    have hP1 : hasKey d1 ("Price") = true := by rw [hcongr]; exact hP
    have hP2 : hasKey d2 ("Price") = true := by
      rw [demand_stage_preserves hds _ (by decide) (by decide) (by decide) (by decide)
        (by decide) (by decide) (by decide) (by decide)]
      exact hP1
    rcases price_stage_ok_inv hps with ⟨hPf, -⟩ | ⟨-, hcp⟩
    · rw [hP2] at hPf
      exact absurd hPf (by simp)
    · obtain ⟨-, hTD, hC, -⟩ := convert_price_ok_inv hcp
      rw [demand_stage_preserves hds _ (by decide) (by decide) (by decide) (by decide)
        (by decide) (by decide) (by decide) (by decide), hcongr] at hTD hC
      exact ⟨hTD, hC⟩

/-- Claim C7: whenever a rule's trigger key is present but one of its
dependent keys is absent, normalization of the record signals an error (the
KeyError that the spec calls MalformedRecord) instead of completing. -/
theorem spec_C7 (kvs : List (String × JVal))
    (hbad :
      (hasKey kvs ("Multiplier") = true ∧
        (hasKey kvs ("Divisor") = false ∨ hasKey kvs ("DigitsRight") = false ∨
         hasKey kvs ("DigitsLeft") = false ∨ hasKey kvs ("SuppressLeadingZero") = false ∨
         (hasKey kvs ("Demand") = false ∧
           (hasKey kvs ("SummationDelivered") = false ∨
            hasKey kvs ("SummationReceived") = false)))) ∨
      (hasKey kvs ("Price") = true ∧
        (hasKey kvs ("TrailingDigits") = false ∨ hasKey kvs ("Currency") = false))) :
    ∃ e : PyErr, process_data (JVal.obj kvs) = .error e := by
  cases hres : process_data (JVal.obj kvs) with
  | error e => exact ⟨e, rfl⟩
  | ok w =>
    exfalso
    have hreq := process_data_obj_ok_requires hres
    rcases hbad with ⟨hM, hmiss⟩ | ⟨hP, hmiss⟩
    · obtain ⟨hD, hDR, hDL, hSLZ, hsum⟩ := hreq.1 hM
      rcases hmiss with hx | hx | hx | hx | ⟨h1, h2⟩
      · simp_all
      · simp_all
      · simp_all
      · simp_all
      · rcases hsum with hDem | ⟨hSD, hSR⟩
        · simp_all
        · rcases h2 with h2 | h2 <;> simp_all
    · obtain ⟨hTD, hC⟩ := hreq.2 hP
      rcases hmiss with hx | hx <;> simp_all

/-- Witness for C7: a record with `Multiplier` but no `Divisor` errors, and
a record with `Price` but no `TrailingDigits` errors. -/
theorem spec_C7_witness :
    (∃ e : PyErr, process_data (JVal.obj [("Multiplier", JVal.str ("0x1")),
      ("DigitsRight", JVal.str ("0x0"))]) = .error e) ∧
    (∃ e : PyErr, process_data (JVal.obj [("Price", JVal.str ("0x3E8")),
      ("Currency", JVal.str ("0x348"))]) = .error e) :=
  ⟨spec_C7 _ (Or.inl ⟨by decide, Or.inl (by decide)⟩),
    spec_C7 _ (Or.inr ⟨by decide, Or.inl (by decide)⟩)⟩

/-- `process_data` on anything that is not a dictionary raises
AttributeError (`.values()` does not exist). -/
theorem process_data_nonobj (v : JVal)
    (h : ∀ kvs : List (String × JVal), ¬(v = JVal.obj kvs)) :
    process_data v = .error (.attributeError ("values")) := by
  cases v with
  | obj kvs => exact absurd rfl (h kvs)
  | str s => exact process_data_str s
  | int n => exact process_data_int n
  | float q => exact process_data_float q
  | bool b => exact process_data_bool b
  | null => exact process_data_null
  | time t => exact process_data_time t
  | arr xs => exact process_data_arr xs

/-- What the `for v in d.values()` loop does to a single value: recurse
into dictionaries, recurse into every element of lists, leave scalars. -/
def processValue (v : JVal) : Except PyErr JVal :=
  match v with
  | JVal.obj kvs => process_data (JVal.obj kvs)
  | JVal.arr xs => Except.map JVal.arr (processElems xs)
  | v => pure v

/-- Computation rule for `Except.map` on a success value. -/
@[simp] theorem exceptMapOkApp {ε α β : Type} (g : α → β) (a : α) :
    Except.map g (Except.ok a : Except ε α) = .ok (g a) := rfl

/-- Computation rule for `Except.map` on an error value. -/
@[simp] theorem exceptMapErrorApp {ε α β : Type} (g : α → β) (e : ε) :
    Except.map g (Except.error e : Except ε α) = .error e := rfl

/-- `processEntries` factored through `processValue`. -/
theorem processEntries_cons_eq (k : String) (v : JVal) (rest : List (String × JVal)) :
    processEntries ((k, v) :: rest) = (do
      let v' ← processValue v
      let rest' ← processEntries rest
      pure ((k, v') :: rest')) := by
  cases v with
  | obj kvs =>
    rw [processEntries_cons_obj]
    rfl
  | arr xs =>
    rw [processEntries_cons_arr]
    cases hx : processElems xs <;> simp [processValue, hx]
  | str s =>
    rw [processEntries_cons_str]
    rfl
  | int n =>
    rw [processEntries_cons_int]
    rfl
  | float q =>
    rw [processEntries_cons_float]
    rfl
  | bool b =>
    rw [processEntries_cons_bool]
    rfl
  | null =>
    rw [processEntries_cons_null]
    rfl
  | time t =>
    rw [processEntries_cons_time]
    rfl

/-- If some element of a list fails `process_data`, processing the list
fails. -/
theorem processElems_err_of_mem (xs : List JVal) (x : JVal) (hx : x ∈ xs)
    (herr : ∃ e, process_data x = .error e) :
    ∃ e', processElems xs = .error e' := by
  induction xs with
  | nil => simp at hx
  | cons y ys ih =>
    obtain ⟨e, he⟩ := herr
    rw [processElems_cons]
    cases hy : process_data y with
    | error e2 => exact ⟨e2, by simp [hy]⟩
    | ok v =>
      rcases List.mem_cons.mp hx with rfl | hx'
      · rw [he] at hy
        exact absurd hy (by simp)
      · obtain ⟨e', he'⟩ := ih hx'
        exact ⟨e', by simp [hy, he']⟩

/-- If some entry value of a dictionary fails `processValue`, processing
the entries fails. -/
theorem processEntries_err_of_mem (kvs : List (String × JVal)) (p : String × JVal)
    (hp : p ∈ kvs) (herr : ∃ e, processValue p.2 = .error e) :
    ∃ e', processEntries kvs = .error e' := by
  induction kvs with
  | nil => simp at hp
  | cons q qs ih =>
    obtain ⟨k, v⟩ := q
    obtain ⟨e, he⟩ := herr
    rw [processEntries_cons_eq]
    cases hv : processValue v with
    | error e2 => exact ⟨e2, by simp [hv]⟩
    | ok v' =>
      rcases List.mem_cons.mp hp with rfl | hp'
      · rw [he] at hv
        exact absurd hv (by simp)
      · obtain ⟨e', he'⟩ := ih hp'
        exact ⟨e', by simp [hv, he']⟩

/-- A list reachable from the value through object values and list elements
contains an element that is not an object (the unstated totality
precondition of `process_data`). -/
inductive BadAt : JVal → Prop where
  | arrElem (xs : List JVal) (x : JVal) (hmem : x ∈ xs)
      (hnotobj : ∀ kvs : List (String × JVal), ¬(x = JVal.obj kvs)) : BadAt (JVal.arr xs)
  | arrDeep (xs : List JVal) (x : JVal) (hmem : x ∈ xs) (h : BadAt x) : BadAt (JVal.arr xs)
  | objDeep (kvs : List (String × JVal)) (p : String × JVal) (hmem : p ∈ kvs)
      (h : BadAt p.2) : BadAt (JVal.obj kvs)

/-- Processing the value of a bad tree fails. -/
theorem badAt_processValue_err {v : JVal} (h : BadAt v) :
    ∃ e, processValue v = .error e := by
  induction h with
  | arrElem xs x hmem hnotobj =>
    obtain ⟨e, he⟩ := processElems_err_of_mem xs x hmem
      ⟨_, process_data_nonobj x hnotobj⟩
    exact ⟨e, by simp [processValue, he]⟩
  | arrDeep xs x hmem hbad ih =>
    have hx : ∃ e, process_data x = .error e := by
      cases x with
      | obj kvs => simpa [processValue] using ih
      | arr ys => exact ⟨_, process_data_arr ys⟩
      | str s => exact ⟨_, process_data_str s⟩
      | int n => exact ⟨_, process_data_int n⟩
      | float q => exact ⟨_, process_data_float q⟩
      | bool b => exact ⟨_, process_data_bool b⟩
      | null => exact ⟨_, process_data_null⟩
      | time t => exact ⟨_, process_data_time t⟩
    obtain ⟨e, he⟩ := processElems_err_of_mem xs x hmem hx
    exact ⟨e, by simp [processValue, he]⟩
  | objDeep kvs p hmem hbad ih =>
    obtain ⟨e', he'⟩ := processEntries_err_of_mem kvs p hmem ih
    exact ⟨e', by simp [processValue, process_data_obj, he']⟩

/-- Claim C9: `process_data` is only total over trees whose lists contain
exclusively objects: on every input in which some reachable list contains a
non-object element, it raises an error instead of returning normally. -/
theorem spec_C9 (v : JVal) (h : BadAt v) : ∃ e : PyErr, process_data v = .error e := by
  have hv := badAt_processValue_err h
  cases v with
  | obj kvs => simpa [processValue] using hv
  | arr xs => exact ⟨_, process_data_arr xs⟩
  | str s => exact ⟨_, process_data_str s⟩
  | int n => exact ⟨_, process_data_int n⟩
  | float q => exact ⟨_, process_data_float q⟩
  | bool b => exact ⟨_, process_data_bool b⟩
  | null => exact ⟨_, process_data_null⟩
  | time t => exact ⟨_, process_data_time t⟩

/-- Witness for C9: a dictionary whose list value contains a bare string
makes `process_data` raise. -/
theorem spec_C9_witness :
    ∃ e : PyErr, process_data (JVal.obj [("a", JVal.arr [JVal.str ("x")])]) = .error e :=
  spec_C9 _ (BadAt.objDeep _ ("a", JVal.arr [JVal.str ("x")]) (by simp)
    (BadAt.arrElem _ (JVal.str ("x")) (by simp) (fun kvs hh => JVal.noConfusion hh)))

/-- A chain of nestings: a value sitting at the bottom of a stack of
single-entry objects and single-element lists. -/
inductive Chain where
  | top
  | objLink (k : String) (c : Chain)
  | listLink (c : Chain)

/-- Plug a value into the bottom of a chain. -/
def plugChain : Chain → JVal → JVal
  | .top, v => v
  | .objLink k c, v => JVal.obj [(k, plugChain c v)]
  | .listLink c, v => JVal.arr [plugChain c v]

/-- A chain along which normalization is transparent: no intermediate
object uses a trigger key as its entry key (otherwise a rule would fire at
that level), and no list element is itself a list (otherwise `process_data`
raises on it, claim C9). -/
def chainGood : Chain → Bool
  | .top => true
  | .objLink k c =>
    !(k == "Multiplier" || k == "Price" || k == "TimeStamp") && chainGood c
  | .listLink .top => true
  | .listLink (.objLink k c) => chainGood (.objLink k c)
  | .listLink (.listLink _) => false

/-- `process_data` is only defined on dictionaries, so the outermost layer
of the chain must not be a list. -/
def chainRootObj : Chain → Bool
  | .listLink _ => false
  | _ => true

/-- Unfolding lemma for `chainGood` on an object link. -/
theorem chainGood_objLink (k : String) (c : Chain) :
    chainGood (.objLink k c) =
      (!(k == "Multiplier" || k == "Price" || k == "TimeStamp") && chainGood c) := by
  rw [chainGood.eq_def]

/-- Unfolding lemma for `chainGood` on a list link over the leaf. -/
theorem chainGood_listLink_top : chainGood (.listLink .top) = true := by
  rw [chainGood.eq_def]

/-- Unfolding lemma for `chainGood` on a list link over an object link. -/
theorem chainGood_listLink_obj (k : String) (c : Chain) :
    chainGood (.listLink (.objLink k c)) = chainGood (.objLink k c) := by
  rw [chainGood.eq_def]

/-- Unfolding lemma for `chainGood` on two nested list links. -/
theorem chainGood_listLink_list (c : Chain) :
    chainGood (.listLink (.listLink c)) = false := by
  rw [chainGood.eq_def]

/-- The value-level recursion is transparent along any good chain: the
processed plugged tree is the plugged processed leaf. -/
theorem chain_value_transparency : ∀ (ch : Chain) (r : List (String × JVal)),
    chainGood ch = true →
    processValue (plugChain ch (JVal.obj r)) =
      Except.map (plugChain ch) (process_data (JVal.obj r))
  | .top, r, hg => by
    cases h : process_data (JVal.obj r) <;> simp [plugChain, processValue, h]
  | .objLink k c, r, hg => by
    rw [chainGood_objLink] at hg
    have hcg : chainGood c = true := by
      cases hx : chainGood c
      · rw [hx, Bool.and_false] at hg
        exact absurd hg (by simp)
      · rfl
    have hor : (k == "Multiplier" || k == "Price" || k == "TimeStamp") = false := by
      cases hx : (k == "Multiplier" || k == "Price" || k == "TimeStamp")
      · rfl
      · rw [hx] at hg
        simp at hg
    have hk1 : (k == "Multiplier") = false := by
      cases hx : (k == "Multiplier")
      · rfl
      · rw [hx] at hor
        simp at hor
    have hk2 : (k == "Price") = false := by
      cases hx : (k == "Price")
      · rfl
      · rw [hx] at hor
        simp at hor
    have hk3 : (k == "TimeStamp") = false := by
      cases hx : (k == "TimeStamp")
      · rfl
      · rw [hx] at hor
        simp at hor
    have ihv := chain_value_transparency c r hcg
    cases h : process_data (JVal.obj r) with
    | error e =>
      rw [h] at ihv
      show process_data (JVal.obj [(k, plugChain c (JVal.obj r))]) =
        Except.map (plugChain (.objLink k c)) (Except.error e)
      rw [process_data_obj, processEntries_cons_eq, ihv]
      simp only [exceptMapErrorApp, exceptErrorBind]
    | ok w =>
      rw [h] at ihv
      have hx1 : hasKey [(k, plugChain c w)] ("Multiplier") = false := by
        simp [hasKey, hk1]
      have hx2 : hasKey [(k, plugChain c w)] ("Price") = false := by
        simp [hasKey, hk2]
      have hx3 : hasKey [(k, plugChain c w)] ("TimeStamp") = false := by
        simp [hasKey, hk3]
      show process_data (JVal.obj [(k, plugChain c (JVal.obj r))]) =
        Except.map (plugChain (.objLink k c)) (Except.ok w)
      rw [process_data_obj, processEntries_cons_eq, ihv]
      simp only [exceptMapOkApp, exceptOkBind, processEntries_nil, exceptPureEqOk]
      rw [demand_stage, if_neg (by simp [hx1])]
      simp only [exceptPureEqOk, exceptOkBind]
      rw [price_stage, if_neg (by simp [hx2])]
      simp only [exceptPureEqOk, exceptOkBind]
      rw [timestamp_stage, if_neg (by simp [hx3])]
      simp only [exceptPureEqOk, exceptOkBind]
      rfl
  | .listLink .top, r, hg => by
    cases h : process_data (JVal.obj r) with
    | error e =>
      show Except.map JVal.arr (processElems [JVal.obj r]) =
        Except.map (plugChain (.listLink .top)) (Except.error e)
      rw [processElems_cons, h]
      simp only [exceptErrorBind, exceptMapErrorApp]
    | ok w =>
      show Except.map JVal.arr (processElems [JVal.obj r]) =
        Except.map (plugChain (.listLink .top)) (Except.ok w)
      rw [processElems_cons, h]
      simp only [exceptOkBind, processElems_nil, exceptPureEqOk, exceptMapOkApp]
      rfl
  | .listLink (.objLink k' c'), r, hg => by
    have ihv := chain_value_transparency (.objLink k' c') r
      (by rw [← chainGood_listLink_obj]; exact hg)
    cases h : process_data (JVal.obj r) with
    | error e =>
      rw [h] at ihv
      simp only [exceptMapErrorApp] at ihv
      have ihd : process_data (JVal.obj [(k', plugChain c' (JVal.obj r))]) = .error e := ihv
      show Except.map JVal.arr (processElems [JVal.obj [(k', plugChain c' (JVal.obj r))]]) =
        Except.map (plugChain (.listLink (.objLink k' c'))) (Except.error e)
      rw [processElems_cons, ihd]
      simp only [exceptErrorBind, exceptMapErrorApp]
    | ok w =>
      rw [h] at ihv
      simp only [exceptMapOkApp] at ihv
      have ihd : process_data (JVal.obj [(k', plugChain c' (JVal.obj r))]) =
        .ok (plugChain (.objLink k' c') w) := ihv
      show Except.map JVal.arr (processElems [JVal.obj [(k', plugChain c' (JVal.obj r))]]) =
        Except.map (plugChain (.listLink (.objLink k' c'))) (Except.ok w)
      rw [processElems_cons, ihd]
      simp only [exceptOkBind, processElems_nil, exceptPureEqOk, exceptMapOkApp]
      rfl
  | .listLink (.listLink c), r, hg => by
    rw [chainGood_listLink_list] at hg
    exact absurd hg (by simp)
termination_by ch => sizeOf ch

/-- Claim C2: normalization is applied at every nesting depth: for every
record `r` and every good chain of object values and list elements around
it, processing the whole structure is exactly processing the leaf record as
if it were top-level and plugging the result back in (errors propagate
unchanged). -/
theorem spec_C2 (ch : Chain) (r : List (String × JVal))
    (hg : chainGood ch = true) (hr : chainRootObj ch = true) :
    process_data (plugChain ch (JVal.obj r)) =
      Except.map (plugChain ch) (process_data (JVal.obj r)) := by
  cases ch with
  | top => cases h : process_data (JVal.obj r) <;> simp [plugChain, h]
  | objLink k c =>
    have h := chain_value_transparency (.objLink k c) r hg
    simpa [plugChain, processValue] using h
  | listLink c => simp [chainRootObj] at hr

/-- Witness for C2: a demand record three levels deep — inside a list
inside an object — is converted exactly as at top level. -/
theorem spec_C2_witness :
    chainGood (Chain.objLink ("Data") (Chain.listLink Chain.top)) = true ∧
    process_data (plugChain (Chain.objLink ("Data") (Chain.listLink Chain.top))
        (JVal.obj [("Demand", JVal.str ("0xFFFFFFFF")), ("Multiplier", JVal.str ("0x1")),
          ("Divisor", JVal.str ("0x3E8")), ("DigitsRight", JVal.str ("0x3")),
          ("DigitsLeft", JVal.str ("0x6")), ("SuppressLeadingZero", JVal.str ("Y"))])) =
      Except.map (plugChain (Chain.objLink ("Data") (Chain.listLink Chain.top)))
        (process_data (JVal.obj [("Demand", JVal.str ("0xFFFFFFFF")),
          ("Multiplier", JVal.str ("0x1")), ("Divisor", JVal.str ("0x3E8")),
          ("DigitsRight", JVal.str ("0x3")), ("DigitsLeft", JVal.str ("0x6")),
          ("SuppressLeadingZero", JVal.str ("Y"))])) :=
  ⟨by simp +decide [chainGood_objLink, chainGood_listLink_top],
    spec_C2 _ _ (by simp +decide [chainGood_objLink, chainGood_listLink_top]) (by decide)⟩

/-- The key that triggers the demand/summation rule. -/
def isMulKey (k : String) : Bool := k == "Multiplier"

/-- The key that triggers the price rule. -/
def isPriceKey (k : String) : Bool := k == "Price"

/-- The key that triggers the timestamp rule. -/
def isTimeKey (k : String) : Bool := k == "TimeStamp"

/-- Any trigger key of the three conversion rules. -/
def isTrigKey (k : String) : Bool := (isMulKey k || isPriceKey k) || isTimeKey k

mutual

/-- No reachable record of the tree uses a key matched by `bad`. -/
def cleanVal (bad : String → Bool) : JVal → Bool
  | .obj kvs => cleanObj bad kvs
  | .arr xs => cleanElems bad xs
  | _ => true
termination_by v => sizeOf v

/-- Entry-list form of `cleanVal`. -/
def cleanObj (bad : String → Bool) : List (String × JVal) → Bool
  | [] => true
  | (k, v) :: rest => !(bad k) && cleanVal bad v && cleanObj bad rest
termination_by l => sizeOf l

/-- Element-list form of `cleanVal`. -/
def cleanElems (bad : String → Bool) : List JVal → Bool
  | [] => true
  | x :: rest => cleanVal bad x && cleanElems bad rest
termination_by l => sizeOf l

end

mutual

/-- Every list reachable in the tree contains only objects. -/
def listsObjVal : JVal → Bool
  | .obj kvs => listsObjObj kvs
  | .arr xs => listsObjElems xs
  | _ => true
termination_by v => sizeOf v

/-- Entry-list form of `listsObjVal`. -/
def listsObjObj : List (String × JVal) → Bool
  | [] => true
  | (_, v) :: rest => listsObjVal v && listsObjObj rest
termination_by l => sizeOf l

/-- Element-list form of `listsObjVal`: every element is an object and is
itself clean. -/
def listsObjElems : List JVal → Bool
  | [] => true
  | x :: rest =>
    (match x with | JVal.obj _ => true | _ => false) && listsObjVal x && listsObjElems rest
termination_by l => sizeOf l

end

@[simp] theorem cleanVal_obj (bad : String → Bool) (kvs : List (String × JVal)) :
    cleanVal bad (JVal.obj kvs) = cleanObj bad kvs := by rw [cleanVal.eq_def]

@[simp] theorem cleanVal_arr (bad : String → Bool) (xs : List JVal) :
    cleanVal bad (JVal.arr xs) = cleanElems bad xs := by rw [cleanVal.eq_def]

@[simp] theorem cleanVal_str (bad : String → Bool) (s : String) :
    cleanVal bad (JVal.str s) = true := by rw [cleanVal.eq_def]

@[simp] theorem cleanVal_int (bad : String → Bool) (n : Int) :
    cleanVal bad (JVal.int n) = true := by rw [cleanVal.eq_def]

@[simp] theorem cleanVal_float (bad : String → Bool) (q : Rat) :
    cleanVal bad (JVal.float q) = true := by rw [cleanVal.eq_def]

@[simp] theorem cleanVal_bool (bad : String → Bool) (b : Bool) :
    cleanVal bad (JVal.bool b) = true := by rw [cleanVal.eq_def]

@[simp] theorem cleanVal_null (bad : String → Bool) :
    cleanVal bad JVal.null = true := by rw [cleanVal.eq_def]

@[simp] theorem cleanVal_time (bad : String → Bool) (t : Int) :
    cleanVal bad (JVal.time t) = true := by rw [cleanVal.eq_def]

@[simp] theorem cleanObj_nil (bad : String → Bool) : cleanObj bad [] = true := by
  rw [cleanObj.eq_def]

@[simp] theorem cleanObj_cons (bad : String → Bool) (k : String) (v : JVal)
    (rest : List (String × JVal)) :
    cleanObj bad ((k, v) :: rest) = (!(bad k) && cleanVal bad v && cleanObj bad rest) := by
  rw [cleanObj.eq_def]

@[simp] theorem cleanElems_nil (bad : String → Bool) : cleanElems bad [] = true := by
  rw [cleanElems.eq_def]

@[simp] theorem cleanElems_cons (bad : String → Bool) (x : JVal) (rest : List JVal) :
    cleanElems bad (x :: rest) = (cleanVal bad x && cleanElems bad rest) := by
  rw [cleanElems.eq_def]

@[simp] theorem listsObjVal_obj (kvs : List (String × JVal)) :
    listsObjVal (JVal.obj kvs) = listsObjObj kvs := by rw [listsObjVal.eq_def]

@[simp] theorem listsObjVal_arr (xs : List JVal) :
    listsObjVal (JVal.arr xs) = listsObjElems xs := by rw [listsObjVal.eq_def]

@[simp] theorem listsObjVal_str (s : String) :
    listsObjVal (JVal.str s) = true := by rw [listsObjVal.eq_def]

@[simp] theorem listsObjVal_int (n : Int) :
    listsObjVal (JVal.int n) = true := by rw [listsObjVal.eq_def]

@[simp] theorem listsObjVal_float (q : Rat) :
    listsObjVal (JVal.float q) = true := by rw [listsObjVal.eq_def]

@[simp] theorem listsObjVal_bool (b : Bool) :
    listsObjVal (JVal.bool b) = true := by rw [listsObjVal.eq_def]

@[simp] theorem listsObjVal_null : listsObjVal JVal.null = true := by
  rw [listsObjVal.eq_def]

@[simp] theorem listsObjVal_time (t : Int) :
    listsObjVal (JVal.time t) = true := by rw [listsObjVal.eq_def]

@[simp] theorem listsObjObj_nil : listsObjObj [] = true := by rw [listsObjObj.eq_def]

@[simp] theorem listsObjObj_cons (k : String) (v : JVal) (rest : List (String × JVal)) :
    listsObjObj ((k, v) :: rest) = (listsObjVal v && listsObjObj rest) := by
  rw [listsObjObj.eq_def]

@[simp] theorem listsObjElems_nil : listsObjElems [] = true := by rw [listsObjElems.eq_def]

@[simp] theorem listsObjElems_cons (x : JVal) (rest : List JVal) :
    listsObjElems (x :: rest) =
      ((match x with | JVal.obj _ => true | _ => false) && listsObjVal x &&
        listsObjElems rest) := by
  rw [listsObjElems.eq_def]

/-- All values in an entry list are clean of `Multiplier` keys and have
object-only lists. -/
def valsGood (l : List (String × JVal)) : Bool :=
  l.all (fun p => cleanVal isMulKey p.2 && listsObjVal p.2)

theorem valsGood_filter {l : List (String × JVal)} (q : String × JVal → Bool)
    (h : valsGood l = true) : valsGood (l.filter q) = true := by
  induction l with
  | nil => simp [valsGood]
  | cons p rest ih =>
    simp only [valsGood, List.all_cons, Bool.and_eq_true] at h
    by_cases hq : q p
    · simp only [List.filter_cons, hq, if_true, valsGood, List.all_cons, Bool.and_eq_true]
      exact ⟨h.1, by simpa [valsGood] using ih h.2⟩
    · simp only [List.filter_cons, hq, if_false]
      exact ih h.2

theorem valsGood_setKey {l : List (String × JVal)} (k : String) (v : JVal)
    (h : valsGood l = true) (hv : cleanVal isMulKey v = true) (hl : listsObjVal v = true) :
    valsGood (setKey l k v) = true := by
  induction l with
  | nil => simp [setKey, valsGood, hv, hl]
  | cons p rest ih =>
    simp only [valsGood, List.all_cons, Bool.and_eq_true] at h
    by_cases hp : p.1 == k
    · simp only [setKey, hp, if_true, valsGood, List.all_cons, Bool.and_eq_true]
      exact ⟨⟨hv, hl⟩, h.2⟩
    · simp only [setKey, hp]
      rw [if_neg (by simp)]
      simp only [valsGood, List.all_cons, Bool.and_eq_true]
      refine ⟨h.1, ?_⟩
      simpa [valsGood] using ih (by simpa [valsGood] using h.2)

/-- A successful `process_data` always returns a dictionary. -/
theorem process_data_ok_shape {x x' : JVal} (h : process_data x = .ok x') :
    ∃ kvs' : List (String × JVal), x' = JVal.obj kvs' := by
  cases x with
  | obj kvs =>
    obtain ⟨d1, d2, d3, d4, -, -, -, -, hw⟩ := process_data_obj_ok_decomp h
    exact ⟨d4, hw⟩
  | arr xs => rw [process_data_arr] at h; exact absurd h (by simp)
  | str s => rw [process_data_str] at h; exact absurd h (by simp)
  | int n => rw [process_data_int] at h; exact absurd h (by simp)
  | float q => rw [process_data_float] at h; exact absurd h (by simp)
  | bool b => rw [process_data_bool] at h; exact absurd h (by simp)
  | null => rw [process_data_null] at h; exact absurd h (by simp)
  | time t => rw [process_data_time] at h; exact absurd h (by simp)

/-- The demand stage keeps entry values good and guarantees the absence of
the `Multiplier` key afterwards. -/
theorem demand_stage_out {d d' : PyDict} (h : demand_stage d = .ok d')
    (hv : valsGood d = true) :
    valsGood d' = true ∧ hasKey d' ("Multiplier") = false := by
  rcases demand_stage_ok_inv h with ⟨hM, rfl⟩ | ⟨hM, hcd⟩
  · exact ⟨hv, hM⟩
  · obtain ⟨-, dd1, hshape, rfl⟩ := convert_demand_ok_inv hcd
    refine ⟨?_, (remFive_hasKey_five dd1).1⟩
    have hdd1 : valsGood dd1 = true := by
      rcases hshape with ⟨q, rfl⟩ | ⟨q1, q2, rfl⟩
      · exact valsGood_setKey _ _ hv (by simp) (by simp)
      · exact valsGood_setKey _ _ (valsGood_setKey _ _ hv (by simp) (by simp))
          (by simp) (by simp)
    exact valsGood_filter _ (valsGood_filter _ (valsGood_filter _
      (valsGood_filter _ (valsGood_filter _ hdd1))))

/-- The price stage keeps entry values good. -/
theorem price_stage_out {d d' : PyDict} (h : price_stage d = .ok d')
    (hv : valsGood d = true) : valsGood d' = true := by
  rcases price_stage_ok_inv h with ⟨-, rfl⟩ | ⟨-, hcp⟩
  · exact hv
  · obtain ⟨-, -, -, q, c, rfl⟩ := convert_price_ok_inv hcp
    exact valsGood_filter _ (valsGood_setKey _ _ (valsGood_setKey _ _ hv (by simp) (by simp))
      (by simp) (by simp))

/-- The timestamp stage keeps entry values good. -/
theorem timestamp_stage_out {d d' : PyDict} (h : timestamp_stage d = .ok d')
    (hv : valsGood d = true) : valsGood d' = true := by
  rcases timestamp_stage_ok_inv h with ⟨-, rfl⟩ | ⟨-, t, rfl⟩
  · exact hv
  · exact valsGood_setKey _ _ hv (by simp) (by simp)

theorem cleanObj_of_valsGood_noM {l : List (String × JVal)} (hv : valsGood l = true)
    (hM : hasKey l ("Multiplier") = false) : cleanObj isMulKey l = true := by
  induction l with
  | nil => simp
  | cons p rest ih =>
    obtain ⟨k, v⟩ := p
    simp only [valsGood, List.all_cons, Bool.and_eq_true] at hv
    simp only [hasKey_cons, Bool.or_eq_false_iff] at hM
    simp only [cleanObj_cons, Bool.and_eq_true]
    exact ⟨⟨by simpa [isMulKey] using hM.1, hv.1.1⟩, ih (by simpa [valsGood] using hv.2)
      (by simpa [hasKey] using hM.2)⟩

theorem listsObjObj_of_valsGood {l : List (String × JVal)} (hv : valsGood l = true) :
    listsObjObj l = true := by
  induction l with
  | nil => simp
  | cons p rest ih =>
    obtain ⟨k, v⟩ := p
    simp only [valsGood, List.all_cons, Bool.and_eq_true] at hv
    simp only [listsObjObj_cons, Bool.and_eq_true]
    exact ⟨hv.1.2, ih (by simpa [valsGood] using hv.2)⟩

mutual

/-- Output invariant of `process_data`: the result has no `Multiplier` key
in any reachable record and all reachable lists contain only objects. -/
theorem out_process_data : ∀ (kvs : List (String × JVal)) (w : JVal),
    process_data (JVal.obj kvs) = .ok w →
    cleanVal isMulKey w = true ∧ listsObjVal w = true
  | kvs, w, h => by
    obtain ⟨d1, d2, d3, d4, hpe, hds, hps, hts, rfl⟩ := process_data_obj_ok_decomp h
    have hvals1 : valsGood d1 = true := out_processEntries kvs d1 hpe
    obtain ⟨hvals2, hM2⟩ := demand_stage_out hds hvals1
    have hvals3 : valsGood d3 = true := price_stage_out hps hvals2
    have hvals4 : valsGood d4 = true := timestamp_stage_out hts hvals3
    have hM4 : hasKey d4 ("Multiplier") = false := by
      rw [timestamp_stage_preserves hts _ (by decide),
        price_stage_preserves hps _ (by decide) (by decide) (by decide)]
      exact hM2
    exact ⟨by simpa using cleanObj_of_valsGood_noM hvals4 hM4,
      by simpa using listsObjObj_of_valsGood hvals4⟩
termination_by kvs w h => (sizeOf (JVal.obj kvs), 0)

/-- Output invariant of the entry recursion. -/
theorem out_processEntries : ∀ (l l' : List (String × JVal)),
    processEntries l = .ok l' → valsGood l' = true
  | [], l', h => by
    simp only [processEntries_nil, exceptPureEqOk] at h
    injection h with h
    simp [← h, valsGood]
  | (k, v) :: rest, l', h => by
    rw [processEntries_cons_eq] at h
    obtain ⟨v', hv, h⟩ := bind_ok h
    obtain ⟨rest', hrest, h⟩ := bind_ok h
    simp only [exceptPureEqOk] at h
    injection h with h
    have hval := out_processValue v v' hv
    have hr := out_processEntries rest rest' hrest
    rw [← h]
    simp only [valsGood, List.all_cons, Bool.and_eq_true]
    exact ⟨⟨hval.1, hval.2⟩, by simpa [valsGood] using hr⟩
termination_by l l' h => (sizeOf l, 0)

/-- Output invariant of a single processed value. -/
theorem out_processValue : ∀ (v v' : JVal), processValue v = .ok v' →
    cleanVal isMulKey v' = true ∧ listsObjVal v' = true
  | .obj kvs, v', h => out_process_data kvs v' h
  | .arr xs, v', h => by
    have h' : Except.map JVal.arr (processElems xs) = .ok v' := h
    cases hx : processElems xs with
    | error e =>
      rw [hx] at h'
      exact absurd h' (by simp)
    | ok xs' =>
      rw [hx] at h'
      simp only [exceptMapOkApp] at h'
      injection h' with h'
      have := out_processElems xs xs' hx
      rw [← h']
      exact ⟨by simpa using this.1, by simpa using this.2⟩
  | .str s, v', h => by
    have h' : (pure (JVal.str s) : Except PyErr JVal) = .ok v' := h
    simp only [exceptPureEqOk] at h'
    injection h' with h'
    simp [← h']
  | .int n, v', h => by
    have h' : (pure (JVal.int n) : Except PyErr JVal) = .ok v' := h
    simp only [exceptPureEqOk] at h'
    injection h' with h'
    simp [← h']
  | .float q, v', h => by
    have h' : (pure (JVal.float q) : Except PyErr JVal) = .ok v' := h
    simp only [exceptPureEqOk] at h'
    injection h' with h'
    simp [← h']
  | .bool b, v', h => by
    have h' : (pure (JVal.bool b) : Except PyErr JVal) = .ok v' := h
    simp only [exceptPureEqOk] at h'
    injection h' with h'
    simp [← h']
  | .null, v', h => by
    have h' : (pure JVal.null : Except PyErr JVal) = .ok v' := h
    simp only [exceptPureEqOk] at h'
    injection h' with h'
    simp [← h']
  | .time t, v', h => by
    have h' : (pure (JVal.time t) : Except PyErr JVal) = .ok v' := h
    simp only [exceptPureEqOk] at h'
    injection h' with h'
    simp [← h']
termination_by v v' h => (sizeOf v, 1)

/-- Output invariant of the list-element recursion. -/
theorem out_processElems : ∀ (xs xs' : List JVal), processElems xs = .ok xs' →
    cleanElems isMulKey xs' = true ∧ listsObjElems xs' = true
  | [], xs', h => by
    simp only [processElems_nil, exceptPureEqOk] at h
    injection h with h
    simp [← h]
  | x :: rest, xs', h => by
    rw [processElems_cons] at h
    obtain ⟨x', hx, h⟩ := bind_ok h
    obtain ⟨rest', hrest, h⟩ := bind_ok h
    simp only [exceptPureEqOk] at h
    injection h with h
    obtain ⟨kvs2, hshape⟩ := process_data_ok_shape hx
    have hxval : cleanVal isMulKey x' = true ∧ listsObjVal x' = true := by
      cases x with
      | obj kvs => exact out_process_data kvs x' hx
      | arr ys => rw [process_data_arr] at hx; exact absurd hx (by simp)
      | str s => rw [process_data_str] at hx; exact absurd hx (by simp)
      | int n => rw [process_data_int] at hx; exact absurd hx (by simp)
      | float q => rw [process_data_float] at hx; exact absurd hx (by simp)
      | bool b => rw [process_data_bool] at hx; exact absurd hx (by simp)
      | null => rw [process_data_null] at hx; exact absurd hx (by simp)
      | time t => rw [process_data_time] at hx; exact absurd hx (by simp)
    have hr := out_processElems rest rest' hrest
    rw [← h]
    constructor
    · simp only [cleanElems_cons, Bool.and_eq_true]
      exact ⟨hxval.1, hr.1⟩
    · simp only [listsObjElems_cons, Bool.and_eq_true]
      refine ⟨⟨?_, hxval.2⟩, hr.2⟩
      rw [hshape]
termination_by xs xs' h => (sizeOf xs, 0)

end

/-- A record clean of trigger keys has none of the three trigger keys. -/
theorem trig_hasKey_false {l : List (String × JVal)} (h : cleanObj isTrigKey l = true) :
    hasKey l ("Multiplier") = false ∧ hasKey l ("Price") = false ∧
    hasKey l ("TimeStamp") = false := by
  induction l with
  | nil => simp
  | cons p rest ih =>
    obtain ⟨k, v⟩ := p
    simp only [cleanObj_cons, Bool.and_eq_true] at h
    obtain ⟨⟨hk, -⟩, hrest⟩ := h
    have hk' : isTrigKey k = false := by simpa using hk
    rw [isTrigKey] at hk'
    simp only [Bool.or_eq_false_iff] at hk'
    obtain ⟨⟨hm, hp⟩, ht⟩ := hk'
    have ihres := ih hrest
    refine ⟨?_, ?_, ?_⟩ <;> simp only [hasKey_cons, Bool.or_eq_false_iff]
    · exact ⟨by simpa [isMulKey] using hm, ihres.1⟩
    · exact ⟨by simpa [isPriceKey] using hp, ihres.2.1⟩
    · exact ⟨by simpa [isTimeKey] using ht, ihres.2.2⟩

mutual

/-- A tree with no trigger keys anywhere and with object-only lists is a
fixed point of `process_data`. -/
theorem fixed_process_data : ∀ (kvs : List (String × JVal)),
    cleanObj isTrigKey kvs = true → listsObjObj kvs = true →
    process_data (JVal.obj kvs) = .ok (JVal.obj kvs)
  | kvs, hc, hl => by
    have hent := fixed_processEntries kvs hc hl
    obtain ⟨hM, hP, hT⟩ := trig_hasKey_false hc
    rw [process_data_obj, hent]
    simp only [exceptOkBind]
    rw [demand_stage, if_neg (by simp [hM])]
    simp only [exceptPureEqOk, exceptOkBind]
    rw [price_stage, if_neg (by simp [hP])]
    simp only [exceptPureEqOk, exceptOkBind]
    rw [timestamp_stage, if_neg (by simp [hT])]
    simp only [exceptPureEqOk, exceptOkBind]
termination_by kvs hc hl => (sizeOf (JVal.obj kvs), 0)

/-- Entry lists of a fixed-point tree process to themselves. -/
theorem fixed_processEntries : ∀ (l : List (String × JVal)),
    cleanObj isTrigKey l = true → listsObjObj l = true → processEntries l = .ok l
  | [], _, _ => by
    rw [processEntries_nil]
    rfl
  | (k, v) :: rest, hc, hl => by
    simp only [cleanObj_cons, Bool.and_eq_true] at hc
    simp only [listsObjObj_cons, Bool.and_eq_true] at hl
    rw [processEntries_cons_eq, fixed_processValue v hc.1.2 hl.1,
      fixed_processEntries rest hc.2 hl.2]
    rfl
termination_by l hc hl => (sizeOf l, 0)

/-- Values of a fixed-point tree process to themselves. -/
theorem fixed_processValue : ∀ (v : JVal), cleanVal isTrigKey v = true →
    listsObjVal v = true → processValue v = .ok v
  | .obj kvs, hc, hl =>
    fixed_process_data kvs (by simpa using hc) (by simpa using hl)
  | .arr xs, hc, hl => by
    have helems := fixed_processElems xs (by simpa using hc) (by simpa using hl)
    show Except.map JVal.arr (processElems xs) = .ok (JVal.arr xs)
    rw [helems]
    rfl
  | .str s, _, _ => rfl
  | .int n, _, _ => rfl
  | .float q, _, _ => rfl
  | .bool b, _, _ => rfl
  | .null, _, _ => rfl
  | .time t, _, _ => rfl
termination_by v hc hl => (sizeOf v, 1)

/-- Elements of a fixed-point tree process to themselves. -/
theorem fixed_processElems : ∀ (xs : List JVal), cleanElems isTrigKey xs = true →
    listsObjElems xs = true → processElems xs = .ok xs
  | [], _, _ => by
    rw [processElems_nil]
    rfl
  | x :: rest, hc, hl => by
    simp only [cleanElems_cons, Bool.and_eq_true] at hc
    simp only [listsObjElems_cons, Bool.and_eq_true] at hl
    obtain ⟨⟨hobj, hlx⟩, hlrest⟩ := hl
    cases x with
    | obj kvs =>
      rw [processElems_cons,
        show process_data (JVal.obj kvs) = .ok (JVal.obj kvs) from
          fixed_process_data kvs (by simpa using hc.1) (by simpa using hlx),
        fixed_processElems rest hc.2 hlrest]
      rfl
    | arr ys => simp at hobj
    | str s => simp at hobj
    | int n => simp at hobj
    | float q => simp at hobj
    | bool b => simp at hobj
    | null => simp at hobj
    | time t => simp at hobj
termination_by xs hc hl => (sizeOf xs, 0)

end

mutual

/-- Cleanliness for two key predicates combines to cleanliness for their
disjunction. -/
theorem cleanVal_or : ∀ (b1 b2 : String → Bool) (v : JVal),
    cleanVal b1 v = true → cleanVal b2 v = true →
    cleanVal (fun k => b1 k || b2 k) v = true
  | b1, b2, .obj kvs, h1, h2 => by
    simp only [cleanVal_obj] at h1 h2 ⊢
    exact cleanObj_or b1 b2 kvs h1 h2
  | b1, b2, .arr xs, h1, h2 => by
    simp only [cleanVal_arr] at h1 h2 ⊢
    exact cleanElems_or b1 b2 xs h1 h2
  | _, _, .str s, _, _ => by simp
  | _, _, .int n, _, _ => by simp
  | _, _, .float q, _, _ => by simp
  | _, _, .bool b, _, _ => by simp
  | _, _, .null, _, _ => by simp
  | _, _, .time t, _, _ => by simp
termination_by _ _ v h1 h2 => sizeOf v

/-- Entry-list form of `cleanVal_or`. -/
theorem cleanObj_or : ∀ (b1 b2 : String → Bool) (l : List (String × JVal)),
    cleanObj b1 l = true → cleanObj b2 l = true →
    cleanObj (fun k => b1 k || b2 k) l = true
  | _, _, [], _, _ => by simp
  | b1, b2, (k, v) :: rest, h1, h2 => by
    simp only [cleanObj_cons, Bool.and_eq_true] at h1 h2 ⊢
    refine ⟨⟨?_, cleanVal_or b1 b2 v h1.1.2 h2.1.2⟩, cleanObj_or b1 b2 rest h1.2 h2.2⟩
    have e1 : b1 k = false := by simpa using h1.1.1
    have e2 : b2 k = false := by simpa using h2.1.1
    simp [e1, e2]
termination_by _ _ l h1 h2 => sizeOf l

/-- Element-list form of `cleanVal_or`. -/
theorem cleanElems_or : ∀ (b1 b2 : String → Bool) (xs : List JVal),
    cleanElems b1 xs = true → cleanElems b2 xs = true →
    cleanElems (fun k => b1 k || b2 k) xs = true
  | _, _, [], _, _ => by simp
  | b1, b2, x :: rest, h1, h2 => by
    simp only [cleanElems_cons, Bool.and_eq_true] at h1 h2 ⊢
    exact ⟨cleanVal_or b1 b2 x h1.1 h2.1, cleanElems_or b1 b2 rest h1.2 h2.2⟩
termination_by _ _ xs h1 h2 => sizeOf xs

end

/-- Counterexample to claim C1 as stated: a price record is normalized
successfully, but running `process_data` a second time on the normalized
record does not terminate normally — the `Price` trigger key was not
removed, so the price rule re-fires and `int(<float>, 0)` raises
TypeError. -/
theorem spec_C1_counterexample :
    process_data (JVal.obj [("Price", JVal.str ("0x3E8")),
      ("TrailingDigits", JVal.str ("0x2")), ("Currency", JVal.str ("0x348"))]) =
      .ok (JVal.obj [("Price", JVal.float 10), ("Currency", JVal.int 840)]) ∧
    process_data (JVal.obj [("Price", JVal.float 10), ("Currency", JVal.int 840)]) =
      .error (.typeError ("int cannot convert non-string with explicit base")) := by
  constructor
  · simp +decide [process_data_obj, demand_stage, price_stage, timestamp_stage,
      convert_price, lookupKey, hasKey, setKey, delKey,
      show pyIntBase0 (JVal.str ("0x3E8")) = .ok 1000 from by decide,
      show pyIntBase0 (JVal.str ("0x2")) = .ok 2 from by decide,
      show pyIntBase0 (JVal.str ("0x348")) = .ok 840 from by decide,
      show (1000 : Rat) / pow10 2 = 10 from by
        norm_num [show pow10 2 = 100 from rfl]]
  · simp +decide [process_data_obj, demand_stage, price_stage, timestamp_stage,
      convert_price, lookupKey, hasKey, pyIntBase0]

/-- Claim C1, amended: a second `process_data` run on an already-normalized
record terminates normally and leaves it unchanged provided the normalized
record contains no `Price` and no `TimeStamp` key at any depth.  The
`Multiplier` trigger is always removed by its rule (so the demand rule
never re-fires), but the `Price` and `TimeStamp` trigger keys survive their
rules, so records on which those rules fired are re-processed and fail
(see the counterexample). -/
theorem spec_C1 (t t' : JVal) (h : process_data t = .ok t')
    (hP : cleanVal isPriceKey t' = true) (hT : cleanVal isTimeKey t' = true) :
    process_data t' = .ok t' := by
  obtain ⟨kvs', hshape⟩ := process_data_ok_shape h
  subst hshape
  cases t with
  | obj kvs =>
    obtain ⟨hM, hL⟩ := out_process_data kvs _ h
    have hMP : cleanVal (fun k => isMulKey k || isPriceKey k) (JVal.obj kvs') = true :=
      cleanVal_or _ _ _ hM hP
    have hAll : cleanVal (fun k => (isMulKey k || isPriceKey k) || isTimeKey k)
        (JVal.obj kvs') = true := cleanVal_or _ _ _ hMP hT
    have hAll' : cleanObj isTrigKey kvs' = true := by
      have h2 : cleanVal isTrigKey (JVal.obj kvs') = true := hAll
      simpa using h2
    exact fixed_process_data kvs' hAll' (by simpa using hL)
  | arr xs => rw [process_data_arr] at h; exact absurd h (by simp)
  | str s => rw [process_data_str] at h; exact absurd h (by simp)
  | int n => rw [process_data_int] at h; exact absurd h (by simp)
  | float q => rw [process_data_float] at h; exact absurd h (by simp)
  | bool b => rw [process_data_bool] at h; exact absurd h (by simp)
  | null => rw [process_data_null] at h; exact absurd h (by simp)
  | time t => rw [process_data_time] at h; exact absurd h (by simp)

/-- Witness for the amended C1: a summation record (no price or timestamp
fields) is normalized, and a second run on the normalized record returns it
unchanged. -/
theorem spec_C1_witness :
    process_data (JVal.obj [("Multiplier", JVal.str ("0x2")),
      ("Divisor", JVal.str ("0x1")), ("DigitsRight", JVal.str ("0x0")),
      ("DigitsLeft", JVal.str ("0x4")), ("SuppressLeadingZero", JVal.str ("Y")),
      ("SummationDelivered", JVal.str ("0x5")), ("SummationReceived", JVal.str ("0x0"))]) =
      .ok (JVal.obj [("SummationDelivered", JVal.float 10),
        ("SummationReceived", JVal.float 0)]) ∧
    process_data (JVal.obj [("SummationDelivered", JVal.float 10),
      ("SummationReceived", JVal.float 0)]) =
      .ok (JVal.obj [("SummationDelivered", JVal.float 10),
        ("SummationReceived", JVal.float 0)]) := by
  have h1 : process_data (JVal.obj [("Multiplier", JVal.str ("0x2")),
      ("Divisor", JVal.str ("0x1")), ("DigitsRight", JVal.str ("0x0")),
      ("DigitsLeft", JVal.str ("0x4")), ("SuppressLeadingZero", JVal.str ("Y")),
      ("SummationDelivered", JVal.str ("0x5")), ("SummationReceived", JVal.str ("0x0"))]) =
      .ok (JVal.obj [("SummationDelivered", JVal.float 10),
        ("SummationReceived", JVal.float 0)]) := by
    simp +decide [process_data_obj, demand_stage, price_stage, timestamp_stage,
      convert_demand, lookupKey, hasKey, setKey, delKey,
      show pyIntBase0 (JVal.str ("0x2")) = .ok 2 from by decide,
      show pyIntBase0 (JVal.str ("0x1")) = .ok 1 from by decide,
      show pyIntBase0 (JVal.str ("0x0")) = .ok 0 from by decide,
      show pyIntBase0 (JVal.str ("0x5")) = .ok 5 from by decide]
    constructor
    · norm_num [pyRound, show pow10 0 = 1 from rfl]
    · norm_num [pyRound, show pow10 0 = 1 from rfl]
  exact ⟨h1, spec_C1 _ _ h1 (by simp +decide [isPriceKey]) (by simp +decide [isTimeKey])⟩
